import Mathlib

/-
Verification of the design-token parsing, validation and alias-resolution
pipeline of the terrazzo repository. The pipeline implementation is modelled
from the specification (the repository sources available here are the parser
test suite and the CSS plugin, which only exercise the pipeline); every
modelled definition carries a doc comment naming the missing source it stands
in for, and the concrete behaviour of the model is checked against the
expected values recorded in packages/parser/test/parse.test.ts.
-/

namespace Terrazzo

/-- Modelled from the spec (section 3, data model): a source span attached to
every raw node, with 1-based line and column. The decoders that produce spans
are external collaborators; spans are treated as opaque position data. -/
structure SourceSpan where
  line : Nat
  column : Nat
  offset : Nat
  length : Nat
deriving DecidableEq, Repr

/-- Modelled from the spec (section 7, error taxonomy): the kinds of fatal
diagnostics the pipeline can raise. -/
inductive DiagKind where
  | parseError
  | typeError
  | rangeError
  | missingProperty
  | aliasError
  | groupError
deriving DecidableEq, Repr

/-- Modelled from the spec (section 3): one fatal diagnostic, carrying the
rendered message and the span of the smallest offending sub-node. -/
structure Diagnostic where
  kind : DiagKind
  message : String
  span : SourceSpan
deriving DecidableEq, Repr

/-- Modelled from the spec (section 4.3): the closed set of token types. -/
inductive TokenType where
  | boolean
  | border
  | color
  | cubicBezier
  | dimension
  | duration
  | fontFamily
  | fontWeight
  | gradient
  | link
  | number
  | string
  | strokeStyle
  | transition
  | typography
  | shadow
deriving DecidableEq, Repr

/-- Modelled from the spec: mapping of the $type metadata string to the
closed token-type set; unknown strings are rejected by the grouping pass. -/
def tokenTypeOf (s : String) : Option TokenType :=
  match s with
  | "boolean" => some .boolean
  | "border" => some .border
  | "color" => some .color
  | "cubicBezier" => some .cubicBezier
  | "dimension" => some .dimension
  | "duration" => some .duration
  | "fontFamily" => some .fontFamily
  | "fontWeight" => some .fontWeight
  | "gradient" => some .gradient
  | "link" => some .link
  | "number" => some .number
  | "string" => some .string
  | "strokeStyle" => some .strokeStyle
  | "transition" => some .transition
  | "typography" => some .typography
  | "shadow" => some .shadow
  | _ => none

/-- Modelled from the spec (section 3): an alias reference parsed from a
scalar, target id plus optional target mode. -/
structure AliasRef where
  targetId : String
  targetMode : Option String
deriving DecidableEq, Repr

mutual
/-- Modelled from the spec (section 3): the raw tree produced by the source
decoder adapter, every node carrying a span. Sequences and mappings use the
companion inductives so that all recursion over the tree is structural. -/
inductive RawNode where
  | str (s : String) (span : SourceSpan)
  | num (q : ℚ) (span : SourceSpan)
  | boolean (b : Bool) (span : SourceSpan)
  | nul (span : SourceSpan)
  | seq (items : RawSeq) (span : SourceSpan)
  | map (entries : RawMap) (span : SourceSpan)

/-- Ordered sequence of raw nodes. -/
inductive RawSeq where
  | nil
  | cons (hd : RawNode) (tl : RawSeq)

/-- Ordered mapping from keys to raw nodes. -/
inductive RawMap where
  | nil
  | cons (key : String) (val : RawNode) (tl : RawMap)
end

/-- Span of a raw node. -/
def RawNode.span : RawNode → SourceSpan
  | .str _ sp => sp
  | .num _ sp => sp
  | .boolean _ sp => sp
  | .nul sp => sp
  | .seq _ sp => sp
  | .map _ sp => sp

/-- JS-like type name of a raw node, used in type-error messages. -/
def RawNode.typeName : RawNode → String
  | .str _ _ => "String"
  | .num _ _ => "Number"
  | .boolean _ _ => "Boolean"
  | .nul _ => "Null"
  | .seq _ _ => "Array"
  | .map _ _ => "Object"

/-- Conversion of a raw sequence to a list of nodes. -/
def RawSeq.toList : RawSeq → List RawNode
  | .nil => []
  | .cons h t => h :: t.toList

/-- Conversion of a raw mapping to an ordered association list. -/
def RawMap.toList : RawMap → List (String × RawNode)
  | .nil => []
  | .cons k v t => (k, v) :: t.toList

/-- Building a raw sequence from a list. -/
def listToSeq : List RawNode → RawSeq
  | [] => .nil
  | h :: t => .cons h (listToSeq t)

/-- Building a raw mapping from an association list. -/
def listToMap : List (String × RawNode) → RawMap
  | [] => .nil
  | (k, v) :: t => .cons k v (listToMap t)

/-- First value bound to a key in a raw mapping. -/
def RawMap.lookup (m : RawMap) (k : String) : Option RawNode :=
  match m with
  | .nil => none
  | .cons k2 v t => if k2 = k then some v else t.lookup k

/-- Modelled from the spec (section 3): a resolved or partially resolved
value. Validators produce alias leaves for well-formed alias scalars
(UnresolvedValue in the spec) and for aliased sub-fields of composite values
(PartialAlias in the spec); the resolver replaces every alias leaf. -/
inductive Val where
  | str (s : String)
  | num (q : ℚ)
  | bool (b : Bool)
  | color (space : String) (c1 c2 c3 alpha : ℚ)
  | arr (items : List Val)
  | obj (fields : List (String × Val))
  | alias (ref : AliasRef)

/-- A scalar (leaf) value: one that contains no alias leaf and no children. -/
def Val.isScalar : Val → Bool
  | .str _ => true
  | .num _ => true
  | .bool _ => true
  | .color _ _ _ _ _ => true
  | _ => false

/-- Error-propagating map over a list, with plain unfolding equations. -/
def mapE (f : α → Except Diagnostic β) : List α → Except Diagnostic (List β)
  | [] => .ok []
  | a :: as => do
    let b ← f a
    let bs ← mapE f as
    .ok (b :: bs)

/-- Left brace character. -/
def lbrace : Char := Char.ofNat 123

/-- Right brace character. -/
def rbrace : Char := Char.ofNat 125

/-- Hash character. -/
def hashCh : Char := Char.ofNat 35

/-- Split a character list at the first hash, returning the part before it
and, when a hash is present, the part after it. -/
def aliasSplit : List Char → List Char × Option (List Char)
  | [] => ([], none)
  | c :: cs =>
    if c = hashCh then ([], some cs)
    else
      let (a, b) := aliasSplit cs
      (c :: a, b)

/-- Modelled from the spec (section 4.4): recognition of well-formed alias
syntax, a string exactly of the form brace path brace or brace path hash mode
brace. Returns none when the string is not a well-formed alias. -/
def parseAliasStr (s : String) : Option AliasRef :=
  match s.data with
  | [] => none
  | c :: rest =>
    if c = lbrace then
      match rest.getLast? with
      | some d =>
        if d = rbrace then
          let inner := rest.dropLast
          let (p, m) := aliasSplit inner
          some ⟨String.mk p, m.map String.mk⟩
        else none
      | none => none
    else none

/-- Modelled from the spec (sections 4.3 and 4.4): the validation-time alias
pre-check applied to every scalar before type-specific validation. A string
opening with a brace is either a well-formed alias (returned as an alias
reference) or an immediate syntax error pinned to the span of the scalar. -/
def aliasCheck (n : RawNode) : Option (Except Diagnostic AliasRef) :=
  match n with
  | .str s sp =>
    match s.data.head? with
    | some c =>
      if c = lbrace then
        some (match parseAliasStr s with
          | some r => .ok r
          | none => .error ⟨.parseError, "Invalid alias: \"" ++ s ++ "\"", sp⟩)
      else none
    | none => none
  | _ => none

/-- Wraps a type-specific validator body with the alias pre-check, so that a
well-formed alias scalar becomes an unresolved alias leaf and a malformed one
raises the invalid-alias syntax error. -/
def withAlias (body : RawNode → Except Diagnostic Val) (n : RawNode) :
    Except Diagnostic Val :=
  match aliasCheck n with
  | some (.ok r) => .ok (.alias r)
  | some (.error d) => .error d
  | none => body n

/-- Whether a character is a decimal digit. -/
def isDigitCh (c : Char) : Bool := 48 ≤ c.toNat && c.toNat ≤ 57

/-- Count of leading decimal digits and the remaining characters. -/
def takeDigits : List Char → Nat × List Char
  | [] => (0, [])
  | c :: cs =>
    if isDigitCh c then
      let (n, r) := takeDigits cs
      (n + 1, r)
    else (0, c :: cs)

/-- Length of the longest unsigned numeric magnitude at the head of a string:
integer digits and an optional dot followed by fraction digits, with at least
one digit; zero when no magnitude is present. -/
def numMagCore (cs : List Char) : Nat :=
  let (d1, cs2) := takeDigits cs
  match cs2 with
  | c :: cs3 =>
    if c = Char.ofNat 46 then
      let (d2, _) := takeDigits cs3
      if d1 + d2 = 0 then 0 else d1 + 1 + d2
    else if d1 = 0 then 0 else d1
  | [] => if d1 = 0 then 0 else d1

/-- Modelled from the spec (section 4.3, dimension): length of the longest
leading numeric magnitude of a string, in the style of a JS float scan: an
optional sign followed by an unsigned magnitude; zero when no numeric
magnitude is present. -/
def numMagLen (cs : List Char) : Nat :=
  match cs with
  | c :: rest =>
    if c = Char.ofNat 45 ∨ c = Char.ofNat 43 then
      match numMagCore rest with
      | 0 => 0
      | k + 1 => k + 2
    else numMagCore cs
  | [] => 0

/-- Specification-side shape of a numeric magnitude, following the wording of
the spec: an optional sign, integer digits, and an optional dot followed by
fraction digits, with at least one digit overall. -/
def NumericMag (mag : List Char) : Prop :=
  ∃ sgn ints dot frac,
    mag = sgn ++ (ints ++ (dot ++ frac)) ∧
    (sgn = [] ∨ sgn = [Char.ofNat 45] ∨ sgn = [Char.ofNat 43]) ∧
    (∀ c ∈ ints, isDigitCh c = true) ∧
    ((dot = [] ∧ frac = []) ∨
      (dot = [Char.ofNat 46] ∧ ∀ c ∈ frac, isDigitCh c = true)) ∧
    ints ++ frac ≠ []

/-- Leading digit characters and the rest of the list. -/
def splitDigits : List Char → List Char × List Char
  | [] => ([], [])
  | c :: cs =>
    if isDigitCh c then
      let (a, b) := splitDigits cs
      (c :: a, b)
    else ([], c :: cs)

/-- Numeric value of a list of digit characters. -/
def digitsToNat (ds : List Char) : Nat :=
  ds.foldl (fun a c => a * 10 + (c.toNat - 48)) 0

/-- Parse a full unsigned decimal literal (digits with an optional dot and
fraction digits) into a rational; none when the characters are not exactly a
decimal literal. -/
def parseUnsignedDec (cs : List Char) : Option ℚ :=
  let (ints, rest) := splitDigits cs
  match rest with
  | [] => if ints = [] then none else some (digitsToNat ints)
  | c :: rest2 =>
    if c = Char.ofNat 46 then
      let (fracs, rest3) := splitDigits rest2
      match rest3 with
      | [] =>
        if ints = [] ∧ fracs = [] then none
        else some ((digitsToNat ints : ℚ) + (digitsToNat fracs : ℚ) / ((10 : ℚ) ^ fracs.length))
      | _ => none
    else none

/-- Parse a full signed decimal literal into a rational. -/
def parseDec (cs : List Char) : Option ℚ :=
  match cs with
  | c :: r =>
    if c = Char.ofNat 45 then (parseUnsignedDec r).map (fun q => -q)
    else parseUnsignedDec cs
  | [] => none

/-- Value of one hexadecimal digit character. -/
def hexVal (c : Char) : Option Nat :=
  if 48 ≤ c.toNat ∧ c.toNat ≤ 57 then some (c.toNat - 48)
  else if 97 ≤ c.toNat ∧ c.toNat ≤ 102 then some (c.toNat - 87)
  else if 65 ≤ c.toNat ∧ c.toNat ≤ 70 then some (c.toNat - 55)
  else none

/-- Value of a two-digit hexadecimal byte. -/
def hexByte (c1 c2 : Char) : Option Nat := do
  let h1 ← hexVal c1
  let h2 ← hexVal c2
  pure (16 * h1 + h2)

/-- Split a character list on a separator character. -/
def splitOnCh (sep : Char) : List Char → List (List Char)
  | [] => [[]]
  | c :: cs =>
    let r := splitOnCh sep cs
    if c = sep then [] :: r
    else
      match r with
      | h :: t => (c :: h) :: t
      | [] => [[c]]

/-- Drop leading space characters. -/
def dropSpaces (cs : List Char) : List Char := cs.dropWhile (fun c => c = Char.ofNat 32)

/-- Trim space characters from both ends. -/
def trimSpaces (cs : List Char) : List Char :=
  (dropSpaces ((dropSpaces cs.reverse)).reverse)

/-- Remainder of a list after a literal head, none when the head does not
match. -/
def dropLit : List Char → List Char → Option (List Char)
  | [], cs => some cs
  | _ :: _, [] => none
  | p :: ps, c :: cs => if p = c then dropLit ps cs else none

/-- Color value from three srgb channel bytes and an alpha rational. -/
def hexColor (b1 b2 b3 : Nat) (alpha : ℚ) : Val :=
  .color "srgb" ((b1 : ℚ) / 255) ((b2 : ℚ) / 255) ((b3 : ℚ) / 255) alpha

/-- Modelled from the spec (section 4.3, color): parsing of a color string to
the normalized colorSpace, channels and alpha shape. Accepts hash-hex
notation with six or eight digits (each channel is the byte over 255, the
eight-digit form carrying the alpha byte over 255), the functional
color(srgb c1 c2 c3) notation with an optional slash alpha, and the legacy
rgb(r, g, b) notation with byte components. An empty string and an
unparseable string raise the color errors of the spec. The synthesized
wide-gamut variant of the spec is a render-time concern of the CSS plugin and
is not part of the normalized value. -/
def parseColorStr (s : String) (sp : SourceSpan) : Except Diagnostic Val :=
  match s.data with
  | [] => .error ⟨.typeError, "Expected color, received empty string", sp⟩
  | c :: rest =>
    if c = hashCh then
      match rest with
      | [a, b, c1, d, e, f] =>
        match hexByte a b, hexByte c1 d, hexByte e f with
        | some b1, some b2, some b3 => .ok (hexColor b1 b2 b3 1)
        | _, _, _ => .error ⟨.typeError, "Unable to parse color \"" ++ s ++ "\"", sp⟩
      | [a, b, c1, d, e, f, g, h] =>
        match hexByte a b, hexByte c1 d, hexByte e f, hexByte g h with
        | some b1, some b2, some b3, some b4 =>
          .ok (hexColor b1 b2 b3 ((b4 : ℚ) / 255))
        | _, _, _, _ => .error ⟨.typeError, "Unable to parse color \"" ++ s ++ "\"", sp⟩
      | _ => .error ⟨.typeError, "Unable to parse color \"" ++ s ++ "\"", sp⟩
    else
      match dropLit ("color(").data s.data with
      | some inner =>
        match inner.getLast? with
        | some cl =>
          if cl = Char.ofNat 41 then
            let words := (splitOnCh (Char.ofNat 32) inner.dropLast).filter (fun w => w ≠ [])
            match words with
            | [space, w1, w2, w3] =>
              match parseDec w1, parseDec w2, parseDec w3 with
              | some q1, some q2, some q3 =>
                .ok (.color (String.mk space) q1 q2 q3 1)
              | _, _, _ => .error ⟨.typeError, "Unable to parse color \"" ++ s ++ "\"", sp⟩
            | [space, w1, w2, w3, sl, wa] =>
              if sl = [Char.ofNat 47] then
                match parseDec w1, parseDec w2, parseDec w3, parseDec wa with
                | some q1, some q2, some q3, some qa =>
                  .ok (.color (String.mk space) q1 q2 q3 qa)
                | _, _, _, _ =>
                  .error ⟨.typeError, "Unable to parse color \"" ++ s ++ "\"", sp⟩
              else .error ⟨.typeError, "Unable to parse color \"" ++ s ++ "\"", sp⟩
            | _ => .error ⟨.typeError, "Unable to parse color \"" ++ s ++ "\"", sp⟩
          else .error ⟨.typeError, "Unable to parse color \"" ++ s ++ "\"", sp⟩
        | none => .error ⟨.typeError, "Unable to parse color \"" ++ s ++ "\"", sp⟩
      | none =>
        match dropLit ("rgb(").data s.data with
        | some inner =>
          match inner.getLast? with
          | some cl =>
            if cl = Char.ofNat 41 then
              match (splitOnCh (Char.ofNat 44) inner.dropLast).map trimSpaces with
              | [w1, w2, w3] =>
                match parseDec w1, parseDec w2, parseDec w3 with
                | some q1, some q2, some q3 =>
                  .ok (.color "srgb" (q1 / 255) (q2 / 255) (q3 / 255) 1)
                | _, _, _ =>
                  .error ⟨.typeError, "Unable to parse color \"" ++ s ++ "\"", sp⟩
              | _ => .error ⟨.typeError, "Unable to parse color \"" ++ s ++ "\"", sp⟩
            else .error ⟨.typeError, "Unable to parse color \"" ++ s ++ "\"", sp⟩
          | none => .error ⟨.typeError, "Unable to parse color \"" ++ s ++ "\"", sp⟩
        | none => .error ⟨.typeError, "Unable to parse color \"" ++ s ++ "\"", sp⟩

/-- Join a list of names with commas, the last one prefixed with or, as in the
unknown-name error messages. -/
def joinOr : List String → String
  | [] => ""
  | [a] => a
  | [a, b] => a ++ ", or " ++ b
  | a :: rest => a ++ ", " ++ joinOr rest

/-- Decimal rendering of an integer. -/
def renderInt (i : ℤ) : String :=
  if i < 0 then "-" ++ Nat.repr i.natAbs else Nat.repr i.natAbs

/-- Rendering of a rational for error messages; integral values render as the
plain integer, which is the only case exercised by the pipeline messages. -/
def renderNum (q : ℚ) : String :=
  if q.den = 1 then renderInt q.num else renderInt q.num ++ "/" ++ Nat.repr q.den

/-- Modelled from the spec (section 4.3, fontWeight): the fixed 18-entry
weight-name table with synonyms, in message order. -/
def fwTable : List (String × ℚ) :=
  [("thin", 100), ("hairline", 100), ("extra-light", 200), ("ultra-light", 200),
   ("light", 300), ("normal", 400), ("regular", 400), ("book", 400),
   ("medium", 500), ("semi-bold", 600), ("demi-bold", 600), ("bold", 700),
   ("extra-bold", 800), ("ultra-bold", 800), ("black", 900), ("heavy", 900),
   ("extra-black", 950), ("ultra-black", 950)]

/-- Names of the weight-name table, in message order. -/
def fwNames : List String := fwTable.map Prod.fst

/-- Modelled from the spec (section 4.3, strokeStyle): the fixed 8-value
stroke-style enumeration, in message order. -/
def strokeNames : List String :=
  ["solid", "dashed", "dotted", "double", "groove", "ridge", "outset", "inset"]

/-- Modelled from the spec (section 4.3, boolean). -/
def booleanBody (n : RawNode) : Except Diagnostic Val :=
  match n with
  | .boolean b _ => .ok (.bool b)
  | _ => .error ⟨.typeError, "Expected boolean, received " ++ n.typeName, n.span⟩

/-- Modelled from the spec (section 4.3, number). -/
def numberBody (n : RawNode) : Except Diagnostic Val :=
  match n with
  | .num q _ => .ok (.num q)
  | _ => .error ⟨.typeError, "Expected number, received " ++ n.typeName, n.span⟩

/-- Modelled from the spec (section 4.3, string): any string, empty
included. -/
def stringBody (n : RawNode) : Except Diagnostic Val :=
  match n with
  | .str s _ => .ok (.str s)
  | _ => .error ⟨.typeError, "Expected string, received " ++ n.typeName, n.span⟩

/-- Modelled from the spec (section 4.3, link): a non-empty string. -/
def linkBody (n : RawNode) : Except Diagnostic Val :=
  match n with
  | .str s sp =>
    if s = "" then .error ⟨.typeError, "Expected URL, received empty string", sp⟩
    else .ok (.str s)
  | _ => .error ⟨.typeError, "Expected string, received " ++ n.typeName, n.span⟩

/-- Modelled from the spec (section 4.3, dimension): a non-empty string made
of a numeric magnitude and a required unit suffix, or the literal number 0;
errors in the priority order of the spec. -/
def dimensionBody (n : RawNode) : Except Diagnostic Val :=
  match n with
  | .num q sp =>
    if q = 0 then .ok (.num 0)
    else .error ⟨.typeError, "Expected string, received Number", sp⟩
  | .str s sp =>
    if s.data = [] then
      .error ⟨.typeError, "Expected dimension, received empty string", sp⟩
    else
      let k := numMagLen s.data
      if k = 0 then
        .error ⟨.typeError, "Expected dimension with units, received \"" ++ s ++ "\"", sp⟩
      else if k = s.data.length then
        .error ⟨.typeError, "Missing units", sp⟩
      else .ok (.str s)
  | _ => .error ⟨.typeError, "Expected string, received " ++ n.typeName, n.span⟩

/-- Modelled from the spec (section 4.3, duration): the dimension shape with
units restricted to ms or s, with the duration-specific messages. -/
def durationBody (n : RawNode) : Except Diagnostic Val :=
  match n with
  | .num q sp =>
    if q = 0 then .ok (.num 0)
    else .error ⟨.typeError, "Expected string, received Number", sp⟩
  | .str s sp =>
    if s.data = [] then
      .error ⟨.typeError, "Expected duration, received empty string", sp⟩
    else
      let k := numMagLen s.data
      if k = 0 then
        .error ⟨.typeError,
          "Expected duration in `ms` or `s`, received \"" ++ s ++ "\"", sp⟩
      else if k = s.data.length then
        .error ⟨.typeError, "Missing unit \"ms\" or \"s\"", sp⟩
      else
        let unit := s.data.drop k
        if unit = [Char.ofNat 109, Char.ofNat 115] ∨ unit = [Char.ofNat 115] then
          .ok (.str s)
        else
          .error ⟨.typeError,
            "Expected duration in `ms` or `s`, received \"" ++ s ++ "\"", sp⟩
  | _ => .error ⟨.typeError, "Expected string, received " ++ n.typeName, n.span⟩

/-- Modelled from the spec (section 4.3, fontWeight): an integer 0 to 1000 or
a name from the fixed weight-name table. -/
def fontWeightBody (n : RawNode) : Except Diagnostic Val :=
  match n with
  | .num q sp =>
    if 0 ≤ q ∧ q ≤ 1000 then .ok (.num q)
    else .error ⟨.rangeError, "Expected number 0–1000, received " ++ renderNum q, sp⟩
  | .str s sp =>
    match fwTable.lookup s with
    | some w => .ok (.num w)
    | none =>
      .error ⟨.rangeError,
        "Unknown font weight \"" ++ s ++ "\". Expected one of: " ++ joinOr fwNames ++ ".",
        sp⟩
  | _ => .error ⟨.typeError, "Expected string or number, received " ++ n.typeName, n.span⟩

/-- Modelled from the spec (section 4.3, fontFamily): a non-empty string or
an array of non-empty strings, array elements independently aliasable. -/
def fontFamilyBody (n : RawNode) : Except Diagnostic Val :=
  match n with
  | .str s sp =>
    if s = "" then
      .error ⟨.typeError, "Expected font family name, received empty string", sp⟩
    else .ok (.arr [.str s])
  | .seq items sp =>
    (mapE (fun el =>
      withAlias (fun el2 =>
        match el2 with
        | .str s2 _ =>
          if s2 = "" then
            .error ⟨.typeError,
              "Expected an array of strings, received some non-strings or empty strings",
              sp⟩
          else .ok (.str s2)
        | _ =>
          .error ⟨.typeError,
            "Expected an array of strings, received some non-strings or empty strings",
            sp⟩) el) items.toList).map .arr
  | _ =>
    .error ⟨.typeError,
      "Expected string or array of strings, received " ++ n.typeName, n.span⟩

/-- Modelled from the spec (section 4.3, cubicBezier): an array of exactly 4
numbers, elements independently aliasable. -/
def cubicBezierBody (n : RawNode) : Except Diagnostic Val :=
  match n with
  | .seq items sp =>
    let l := items.toList
    if l.length ≠ 4 then
      .error ⟨.typeError,
        "Expected an array of 4 numbers, received " ++ Nat.repr l.length, sp⟩
    else
      (mapE (fun el =>
        withAlias (fun el2 =>
          match el2 with
          | .num q _ => .ok (.num q)
          | _ =>
            .error ⟨.typeError,
              "Expected an array of 4 numbers, received some non-numbers", sp⟩) el) l).map .arr
  | _ =>
    .error ⟨.typeError, "Expected an array of 4 numbers, received " ++ n.typeName,
      n.span⟩

/-- Modelled from the spec (section 4.3, color). -/
def colorBody (n : RawNode) : Except Diagnostic Val :=
  match n with
  | .str s sp => parseColorStr s sp
  | _ => .error ⟨.typeError, "Expected string, received " ++ n.typeName, n.span⟩

/-- Modelled from the spec (section 4.3, strokeStyle): a string from the
fixed enumeration, or an object with lineCap and dashArray where dashArray is
an array of non-empty strings, elements independently aliasable; the
dashArray violation message is reproduced verbatim from the code, including
its original wording. -/
def strokeStyleBody (n : RawNode) : Except Diagnostic Val :=
  match n with
  | .str s sp =>
    if strokeNames.contains s then .ok (.str s)
    else
      .error ⟨.rangeError,
        "Unknown stroke style \"" ++ s ++ "\". Expected one of: " ++
          joinOr strokeNames ++ ".", sp⟩
  | .map entries sp =>
    match entries.lookup "lineCap" with
    | none => .error ⟨.missingProperty, "Missing required property \"lineCap\"", sp⟩
    | some lc =>
      match entries.lookup "dashArray" with
      | none => .error ⟨.missingProperty, "Missing required property \"dashArray\"", sp⟩
      | some da => do
        let lcv ← withAlias stringBody lc
        match da with
        | .seq items _ =>
          let dv ← mapE (fun el =>
            withAlias (fun el2 =>
              match el2 with
              | .str s2 esp =>
                if s2 = "" then
                  .error ⟨.typeError,
                    "Expected array of strings, recieved some non-strings or empty strings.",
                    esp⟩
                else .ok (.str s2)
              | _ =>
                .error ⟨.typeError,
                  "Expected array of strings, recieved some non-strings or empty strings.",
                  el2.span⟩) el) items.toList
          .ok (.obj [("lineCap", lcv), ("dashArray", .arr dv)])
        | _ =>
          .error ⟨.typeError, "Expected array of strings, received " ++ da.typeName,
            da.span⟩
  | _ => .error ⟨.typeError, "Expected string or object, received " ++ n.typeName, n.span⟩

/-- Modelled from the spec (section 4.3, border): an object with required
color, width and style sub-fields, each independently aliasable, the missing
field error pinned to the span of the value object. -/
def borderBody (n : RawNode) : Except Diagnostic Val :=
  match n with
  | .map entries sp =>
    match entries.lookup "color" with
    | none => .error ⟨.missingProperty, "Missing required property \"color\"", sp⟩
    | some cNode =>
      match entries.lookup "width" with
      | none => .error ⟨.missingProperty, "Missing required property \"width\"", sp⟩
      | some wNode =>
        match entries.lookup "style" with
        | none => .error ⟨.missingProperty, "Missing required property \"style\"", sp⟩
        | some sNode => do
          let cv ← withAlias colorBody cNode
          let wv ← withAlias dimensionBody wNode
          let sv ← withAlias strokeStyleBody sNode
          .ok (.obj [("color", cv), ("width", wv), ("style", sv)])
  | _ => .error ⟨.typeError, "Expected object, received " ++ n.typeName, n.span⟩

/-- Modelled from the spec (section 4.3, transition): an object with required
duration and timingFunction and an optional delay defaulting to the literal 0,
each field independently aliasable. -/
def transitionBody (n : RawNode) : Except Diagnostic Val :=
  match n with
  | .map entries sp =>
    match entries.lookup "duration" with
    | none => .error ⟨.missingProperty, "Missing required property \"duration\"", sp⟩
    | some dNode =>
      match entries.lookup "timingFunction" with
      | none =>
        .error ⟨.missingProperty, "Missing required property \"timingFunction\"", sp⟩
      | some tNode => do
        let dv ← withAlias durationBody dNode
        let tv ← withAlias cubicBezierBody tNode
        let delay ← match entries.lookup "delay" with
          | some del => withAlias durationBody del
          | none => .ok (.num 0)
        .ok (.obj [("duration", dv), ("timingFunction", tv), ("delay", delay)])
  | _ => .error ⟨.typeError, "Expected object, received " ++ n.typeName, n.span⟩

/-- Verbatim scalar sub-field of a shadow layer: the raw string or number is
kept exactly as written. -/
def shadowFieldBody (n : RawNode) : Except Diagnostic Val :=
  match n with
  | .str s _ => .ok (.str s)
  | .num q _ => .ok (.num q)
  | _ => .error ⟨.typeError, "Expected string, received " ++ n.typeName, n.span⟩

/-- Modelled from the spec (section 4.3, shadow): one object layer with
required color, offsetX, offsetY and blur and optional spread; the sub-fields
are kept exactly as written in the source (the shadow validator does not
normalize its color string, unlike border and gradient). -/
def shadowLayer (entries : RawMap) (sp : SourceSpan) : Except Diagnostic Val :=
  match entries.lookup "color" with
  | none => .error ⟨.missingProperty, "Missing required property \"color\"", sp⟩
  | some cNode =>
    match entries.lookup "offsetX" with
    | none => .error ⟨.missingProperty, "Missing required property \"offsetX\"", sp⟩
    | some xNode =>
      match entries.lookup "offsetY" with
      | none => .error ⟨.missingProperty, "Missing required property \"offsetY\"", sp⟩
      | some yNode =>
        match entries.lookup "blur" with
        | none => .error ⟨.missingProperty, "Missing required property \"blur\"", sp⟩
        | some bNode => do
          let cv ← withAlias shadowFieldBody cNode
          let xv ← withAlias shadowFieldBody xNode
          let yv ← withAlias shadowFieldBody yNode
          let bv ← withAlias shadowFieldBody bNode
          match entries.lookup "spread" with
          | some sNode => do
            let sv ← withAlias shadowFieldBody sNode
            .ok (.obj [("color", cv), ("offsetX", xv), ("offsetY", yv),
                       ("blur", bv), ("spread", sv)])
          | none =>
            .ok (.obj [("color", cv), ("offsetX", xv), ("offsetY", yv), ("blur", bv)])

/-- Modelled from the spec (section 4.3, shadow): one object or an array of
objects; a single object is normalized into a one-element list. -/
def shadowBody (n : RawNode) : Except Diagnostic Val :=
  match n with
  | .map entries sp => (shadowLayer entries sp).map (fun l => .arr [l])
  | .seq items _ =>
    (mapE (fun el =>
      match el with
      | .map entries2 sp2 => shadowLayer entries2 sp2
      | _ => .error ⟨.typeError, "Expected object, received " ++ el.typeName, el.span⟩)
      items.toList).map .arr
  | _ => .error ⟨.typeError, "Expected object or array of objects, received " ++
      n.typeName, n.span⟩

/-- Structural pass over one gradient stop: the stop must be an object with a
required number-typed position (aliasable) and a present color; the missing
position error is pinned to the span of the stop object itself, not the
enclosing array. The raw color node is carried to the later color pass. -/
def gradStop1 (n : RawNode) : Except Diagnostic (RawNode × Val × SourceSpan) :=
  match n with
  | .map entries ssp =>
    match entries.lookup "position" with
    | none => .error ⟨.missingProperty, "Missing required property \"position\"", ssp⟩
    | some p => do
      let pv ← withAlias numberBody p
      match entries.lookup "color" with
      | none => .error ⟨.missingProperty, "Missing required property \"color\"", ssp⟩
      | some c => .ok (c, pv, ssp)
  | _ => .error ⟨.typeError, "Expected object, received " ++ n.typeName, n.span⟩

/-- Color pass over one gradient stop: the raw color node is validated with
the color validator (aliasable) and the normalized stop object is built. -/
def gradStop2 (t : RawNode × Val × SourceSpan) : Except Diagnostic Val := do
  let cv ← withAlias colorBody t.1
  .ok (.obj [("color", cv), ("position", t.2.1)])

/-- Modelled from the spec (section 4.3, gradient): an array of color and
position stops; the structural pass over all stops runs before any color is
parsed, matching the observed error precedence of the test suite. -/
def gradientBody (n : RawNode) : Except Diagnostic Val :=
  match n with
  | .seq items _ => do
    let stops ← mapE gradStop1 items.toList
    let vals ← mapE gradStop2 stops
    .ok (.arr vals)
  | _ => .error ⟨.typeError, "Expected array of gradient stops, received " ++
      n.typeName, n.span⟩

/-- Modelled from the spec (section 4.3, typography): an object of
string-valued properties, each independently aliasable; the shorthand
normalization of the spec is left to downstream consumers. -/
def typographyBody (n : RawNode) : Except Diagnostic Val :=
  match n with
  | .map entries _ =>
    (mapE (fun p => (withAlias stringBody p.2).map (fun v => (p.1, v)))
      entries.toList).map .obj
  | _ => .error ⟨.typeError, "Expected object, received " ++ n.typeName, n.span⟩

/-- Modelled from the spec (section 4.3): the type-indexed validator body
dispatch, a closed match over the token-type enumeration. -/
def validateBody (t : TokenType) : RawNode → Except Diagnostic Val :=
  match t with
  | .boolean => booleanBody
  | .border => borderBody
  | .color => colorBody
  | .cubicBezier => cubicBezierBody
  | .dimension => dimensionBody
  | .duration => durationBody
  | .fontFamily => fontFamilyBody
  | .fontWeight => fontWeightBody
  | .gradient => gradientBody
  | .link => linkBody
  | .number => numberBody
  | .string => stringBody
  | .strokeStyle => strokeStyleBody
  | .transition => transitionBody
  | .typography => typographyBody
  | .shadow => shadowBody

/-- Modelled from the spec (sections 4.3 and 4.4): the full value validator
for one raw value node of a given token type; the alias pre-check runs before
type-specific validation, so malformed alias braces fail at validation time
and well-formed aliases are deferred to the resolver. -/
def validateValue (t : TokenType) (n : RawNode) : Except Diagnostic Val :=
  withAlias (validateBody t) n

/-- Dollar character, marking metadata keys. -/
def dollarCh : Char := Char.ofNat 36

/-- Whether a key is a metadata key (starts with a dollar sign). -/
def isMeta (k : String) : Bool := k.data.head? = some dollarCh

/-- Whether a raw node is a token node: a mapping carrying a value key. -/
def isTokenNode (n : RawNode) : Bool :=
  match n with
  | .map m _ => (m.lookup "$value").isSome
  | _ => false

/-- Dot-joined token id from a key path. -/
def dotJoin (path : List String) : String := String.intercalate "." path

/-- Modelled from the spec (section 3): a group record with the dot-joined
group id, effective type, description, extensions and the ordered ids of the
direct descendant tokens. -/
structure GroupSpec where
  id : String
  type : Option TokenType
  description : Option String
  extensions : Option RawNode
  tokens : List String

/-- Effective type declared by a mapping node: the explicit $type entry if
present (a fatal error when it is not a known type string), otherwise none. -/
def typeOfEntries (entries : RawMap) : Except Diagnostic (Option TokenType) :=
  match entries.lookup "$type" with
  | none => .ok none
  | some (.str s sp) =>
    match tokenTypeOf s with
    | some t => .ok (some t)
    | none => .error ⟨.typeError, "Unknown token type \"" ++ s ++ "\"", sp⟩
  | some other =>
    .error ⟨.typeError, "Expected string, received " ++ other.typeName, other.span⟩

/-- Description string of a mapping node, when present. -/
def descOf (entries : RawMap) : Option String :=
  match entries.lookup "$description" with
  | some (.str s _) => some s
  | _ => none

/-- Extensions node of a mapping node, when present. -/
def extOf (entries : RawMap) : Option RawNode := entries.lookup "$extensions"

/-- Mode overrides of a token node: the entries of the mode mapping inside
$extensions, in document order; empty when absent. -/
def modesOf (entries : RawMap) : List (String × RawNode) :=
  match entries.lookup "$extensions" with
  | some (.map em _) =>
    match em.lookup "mode" with
    | some (.map mm _) => mm.toList
    | _ => []
  | _ => []

/-- Ordered ids of the direct descendant token children of a mapping node. -/
def directTokenIds (path : List String) (entries : RawMap) : List String :=
  entries.toList.filterMap (fun p =>
    if ¬isMeta p.1 ∧ isTokenNode p.2 then some (dotJoin (path ++ [p.1])) else none)

/-- Group record for a non-root group node. -/
def mkGroupSpec (path : List String) (eff : Option TokenType) (entries : RawMap) :
    GroupSpec :=
  ⟨dotJoin path, eff, descOf entries, extOf entries, directTokenIds path entries⟩

/-- Modelled from the spec (section 4.2): one token as collected by the
grouping pass, before validation: id, effective type, raw value node, raw
mode overrides, owning group and defining span. -/
structure TokenRaw where
  id : String
  type : TokenType
  value : RawNode
  modes : List (String × RawNode)
  group : Option GroupSpec
  span : SourceSpan

mutual
/-- Modelled from the spec (section 4.2): the depth-first walk of the raw
tree. A mapping node carrying a $value key is a token (a fatal error when no
effective type is resolvable); any other mapping node is a group (or the
root), accumulating a group record and passing the effective type downward.
Metadata keys are never treated as children. -/
def walkNode (path : List String) (inh : Option TokenType)
    (parent : Option GroupSpec) : RawNode → Except Diagnostic (List TokenRaw)
  | .map entries sp => do
    let ot ← typeOfEntries entries
    let eff := ot <|> inh
    match entries.lookup "$value" with
    | some v =>
      match eff with
      | none => .error ⟨.groupError, "Missing required property \"$type\"", sp⟩
      | some t => .ok [⟨dotJoin path, t, v, modesOf entries, parent, sp⟩]
    | none =>
      let g := if path.isEmpty then parent else some (mkGroupSpec path eff entries)
      walkEntries path eff g entries
  | _ => .ok []

/-- Walk over the children of a group node, skipping metadata keys and
concatenating the collected tokens in document order. -/
def walkEntries (path : List String) (inh : Option TokenType)
    (g : Option GroupSpec) : RawMap → Except Diagnostic (List TokenRaw)
  | .nil => .ok []
  | .cons k v rest =>
    if isMeta k then walkEntries path inh g rest
    else do
      let ts ← walkNode (path ++ [k]) inh g v
      let rest2 ← walkEntries path inh g rest
      .ok (ts ++ rest2)
end

/-- Modelled from the spec (sections 4.3 and 4.5): one provisionally
validated token; vmodes lists the validated value of every mode, the base
mode keyed with a dot always first. -/
structure VToken where
  id : String
  type : TokenType
  vmodes : List (String × Val)
  group : Option GroupSpec
  span : SourceSpan

/-- Modelled from the spec (section 4.5): validation of one token, the base
value from $value and every mode override validated with the same validator
as the base value. -/
def validateToken (t : TokenRaw) : Except Diagnostic VToken := do
  let base ← validateValue t.type t.value
  let os ← mapE (fun p => (validateValue t.type p.2).map (fun v => (p.1, v))) t.modes
  .ok ⟨t.id, t.type, (".", base) :: os, t.group, t.span⟩

/-- Modelled from the spec (section 3): one fully resolved token of the
normalized token table. -/
structure NormalizedToken where
  id : String
  type : TokenType
  modes : List (String × Val)
  aliasOf : Option String
  group : Option GroupSpec
  span : SourceSpan

/-- Token of the validated context with a given id. -/
def findToken (ctx : List VToken) (id : String) : Option VToken :=
  ctx.find? (fun t => t.id == id)

/-- Validated value referenced by an alias: the target token looked up by id,
then its mode entry at the referenced mode, the base mode by default. -/
def lookupVal (ctx : List VToken) (r : AliasRef) : Option Val :=
  (findToken ctx r.targetId).bind (fun t => t.vmodes.lookup (r.targetMode.getD "."))

/-- Modelled from the spec (section 4.4): fueled alias substitution. An alias
leaf is replaced by the referenced validated value, which is resolved in
turn; composite values are resolved field by field. A missing target is a
fatal dangling-alias error and fuel exhaustion, which the pipeline-level fuel
bound makes possible only on a cyclic alias graph, is the fatal cycle error;
both are alias errors pinned to the span of the referencing token. The spec
describes this pass as a topological sort over the alias graph; the fueled
chase computes the same substitution on every acyclic graph. -/
def resolveVal (ctx : List VToken) (sp : SourceSpan) :
    Nat → Val → Except Diagnostic Val
  | 0, _ => .error ⟨.aliasError, "Alias cycle detected", sp⟩
  | fuel + 1, .alias r =>
    match lookupVal ctx r with
    | none => .error ⟨.aliasError, "Dangling alias \"" ++ r.targetId ++ "\"", sp⟩
    | some v => resolveVal ctx sp fuel v
  | fuel + 1, .arr items => (mapE (resolveVal ctx sp fuel) items).map .arr
  | fuel + 1, .obj fields =>
    (mapE (fun p => (resolveVal ctx sp fuel p.2).map (fun v => (p.1, v))) fields).map .obj
  | _ + 1, .str s => .ok (.str s)
  | _ + 1, .num q => .ok (.num q)
  | _ + 1, .bool b => .ok (.bool b)
  | _ + 1, .color space c1 c2 c3 a => .ok (.color space c1 c2 c3 a)

/-- Modelled from the spec (section 4.4): resolution of one mode entry. A
top-level alias must target an existing token of the same type (the
type-mismatch alias check of the spec); sub-field aliases are substituted
without a cross-type check, matching the open question recorded in the spec
about value-compatible targets. -/
def resolveEntry (ctx : List VToken) (fuel : Nat) (sp : SourceSpan)
    (expected : TokenType) (v : Val) : Except Diagnostic Val :=
  match v with
  | .alias r =>
    match findToken ctx r.targetId with
    | none => .error ⟨.aliasError, "Dangling alias \"" ++ r.targetId ++ "\"", sp⟩
    | some tgt =>
      if tgt.type = expected then resolveVal ctx sp fuel (.alias r)
      else .error ⟨.aliasError,
        "Aliased token \"" ++ r.targetId ++ "\" has the wrong type", sp⟩
  | _ => resolveVal ctx sp fuel v

/-- Modelled from the spec (sections 3 and 4.4): resolution of one token.
Every mode entry is resolved; aliasOf is set exactly when the entire
base-mode value was a single top-level alias, to the immediate target id. -/
def resolveToken (ctx : List VToken) (fuel : Nat) (vt : VToken) :
    Except Diagnostic NormalizedToken := do
  let ms ← mapE (fun p =>
    (resolveEntry ctx fuel vt.span vt.type p.2).map (fun v => (p.1, v))) vt.vmodes
  let ali := match vt.vmodes.lookup "." with
    | some (.alias r) => some r.targetId
    | _ => none
  .ok ⟨vt.id, vt.type, ms, ali, vt.group, vt.span⟩

mutual
/-- Structural size of a value, used only for the fuel bound. -/
def valSize : Val → Nat
  | .arr items => 1 + valSizeList items
  | .obj fields => 1 + valSizeFields fields
  | _ => 1

/-- Total size of a list of values. -/
def valSizeList : List Val → Nat
  | [] => 0
  | v :: vs => valSize v + valSizeList vs

/-- Total size of the values of an association list. -/
def valSizeFields : List (String × Val) → Nat
  | [] => 0
  | p :: ps => valSize p.2 + valSizeFields ps
end

/-- Fuel bound for alias substitution: two more than the total size of all
validated values, so an exhaustion can only arise from a cyclic chain. -/
def totalFuel (vts : List VToken) : Nat :=
  (vts.map (fun t => 1 + valSizeFields t.vmodes)).sum + 2

/-- Modelled from the spec (section 2, control flow): the full pipeline from
a decoded raw tree to the normalized token table, in document order: grouping
pass, per-token validation, then whole-document alias resolution; the first
diagnostic raised by any pass aborts the pipeline. -/
def parseDocument (doc : RawNode) : Except Diagnostic (List NormalizedToken) := do
  let toks ← walkNode [] none none doc
  let vts ← mapE validateToken toks
  mapE (resolveToken vts (totalFuel vts)) vts

/-- Synthesized span used by the concrete demonstration documents. -/
def mkSp (n : Nat) : SourceSpan := ⟨n, n, n, n⟩

/-- Concrete document from the alias test of the test suite: a fontWeight
token and a second token whose entire value is an alias to it. -/
def demoDoc1 : RawNode :=
  .map (listToMap [
    ("font", .map (listToMap [
      ("weight", .map (listToMap [
        ("bold", .map (listToMap [
          ("$type", .str "fontWeight" (mkSp 4)),
          ("$value", .num 700 (mkSp 5))]) (mkSp 3))]) (mkSp 2))]) (mkSp 1)),
    ("bold", .map (listToMap [
      ("$type", .str "fontWeight" (mkSp 7)),
      ("$value", .str "\x7bfont.weight.bold\x7d" (mkSp 8))]) (mkSp 6))]) (mkSp 0)

/-- Tokens of an Except result, empty on error. -/
def okTokens (e : Except Diagnostic (List TokenRaw)) : List TokenRaw :=
  match e with
  | .ok l => l
  | .error _ => []

/-- Table of an Except result, empty on error. -/
def okTable (e : Except Diagnostic (List NormalizedToken)) : List NormalizedToken :=
  match e with
  | .ok l => l
  | .error _ => []

/-- Placeholder raw token used as a lookup default. -/
def defaultTokenRaw : TokenRaw :=
  ⟨"", .boolean, .nul (mkSp 0), [], none, mkSp 0⟩

/-- Grouping-pass output of the first demonstration document. -/
def demoToks1 : List TokenRaw := okTokens (walkNode [] none none demoDoc1)

/-- Pipeline output of the first demonstration document. -/
def demoTable1 : List NormalizedToken := okTable (parseDocument demoDoc1)

/-- Aliasing token of the first demonstration document. -/
def demoTA1 : TokenRaw :=
  (demoToks1.find? (fun t => t.id == "bold")).getD defaultTokenRaw

/-- Target token of the first demonstration document. -/
def demoTB1 : TokenRaw :=
  (demoToks1.find? (fun t => t.id == "font.weight.bold")).getD defaultTokenRaw

/-- Concrete document with per-mode alias targeting: token x aliases token p
at the base mode and, inside its mode overrides, aliases the light and dark
modes of p. -/
def demoDoc2 : RawNode :=
  .map (listToMap [
    ("p", .map (listToMap [
      ("$type", .str "fontWeight" (mkSp 2)),
      ("$value", .num 400 (mkSp 3)),
      ("$extensions", .map (listToMap [
        ("mode", .map (listToMap [
          ("light", .num 400 (mkSp 6)),
          ("dark", .num 700 (mkSp 7))]) (mkSp 5))]) (mkSp 4))]) (mkSp 1)),
    ("x", .map (listToMap [
      ("$type", .str "fontWeight" (mkSp 9)),
      ("$value", .str "\x7bp\x7d" (mkSp 10)),
      ("$extensions", .map (listToMap [
        ("mode", .map (listToMap [
          ("light", .str "\x7bp#light\x7d" (mkSp 13)),
          ("dark", .str "\x7bp#dark\x7d" (mkSp 14))]) (mkSp 12))]) (mkSp 11))]) (mkSp 8))]) (mkSp 0)

/-- Grouping-pass output of the second demonstration document. -/
def demoToks2 : List TokenRaw := okTokens (walkNode [] none none demoDoc2)

/-- Pipeline output of the second demonstration document. -/
def demoTable2 : List NormalizedToken := okTable (parseDocument demoDoc2)

/-- Referencing token of the second demonstration document. -/
def demoTX2 : TokenRaw :=
  (demoToks2.find? (fun t => t.id == "x")).getD defaultTokenRaw

/-- Target token of the second demonstration document. -/
def demoTP2 : TokenRaw :=
  (demoToks2.find? (fun t => t.id == "p")).getD defaultTokenRaw

/-- Entries of the color.blue group node of the groups test: description,
extensions and four numbered token children in document order. -/
def demoBlueEntries : RawMap := listToMap [
  ("$description", .str "Blue palette" (mkSp 4)),
  ("$extensions", .map (listToMap [("foo", .str "bar" (mkSp 6))]) (mkSp 5)),
  ("7", .map (listToMap [("$value", .str "#8ec8f6" (mkSp 8))]) (mkSp 7)),
  ("8", .map (listToMap [("$value", .str "#5eb1ef" (mkSp 10))]) (mkSp 9)),
  ("9", .map (listToMap [("$value", .str "#0090ff" (mkSp 12))]) (mkSp 11)),
  ("10", .map (listToMap [("$value", .str "#0588f0" (mkSp 14))]) (mkSp 13))]

/-- Concrete document from the groups test: a color group with a blue
subgroup holding four numbered tokens, and a childless border group. -/
def demoDoc3 : RawNode :=
  .map (listToMap [
    ("color", .map (listToMap [
      ("$type", .str "color" (mkSp 2)),
      ("blue", .map demoBlueEntries (mkSp 3))]) (mkSp 1)),
    ("border", .map (listToMap [("$type", .str "border" (mkSp 16))]) (mkSp 15))])
    (mkSp 0)

/-- Grouping-pass output of the third demonstration document. -/
def demoToks3 : List TokenRaw := okTokens (walkNode [] none none demoDoc3)

theorem seqToList_listToSeq (l : List RawNode) : (listToSeq l).toList = l := by
  induction l with
  | nil => rfl
  | cons h t ih => simp [listToSeq, RawSeq.toList, ih]

theorem mapToList_listToMap (l : List (String × RawNode)) :
    (listToMap l).toList = l := by
  induction l with
  | nil => rfl
  | cons h t ih => cases h; simp [listToMap, RawMap.toList, ih]

theorem mapE_cons_ok {f : α → Except Diagnostic β} {x : α} {xs : List α}
    {ys : List β} (h : mapE f (x :: xs) = .ok ys) :
    ∃ y ys2, f x = .ok y ∧ mapE f xs = .ok ys2 ∧ ys = y :: ys2 := by
  cases h1 : f x with
  | error e => simp [mapE, h1, Bind.bind, Except.bind] at h
  | ok y =>
    cases h2 : mapE f xs with
    | error e => simp [mapE, h1, h2, Bind.bind, Except.bind] at h
    | ok ys2 =>
      simp [mapE, h1, h2, Bind.bind, Except.bind] at h
      exact ⟨y, ys2, rfl, rfl, h.symm⟩

theorem mapE_ok_forall2 {f : α → Except Diagnostic β} {xs : List α} {ys : List β}
    (h : mapE f xs = .ok ys) : List.Forall₂ (fun a b => f a = .ok b) xs ys := by
  induction xs generalizing ys with
  | nil =>
    simp [mapE] at h
    subst h
    exact .nil
  | cons a as ih =>
    obtain ⟨y, ys2, h1, h2, rfl⟩ := mapE_cons_ok h
    exact .cons h1 (ih h2)

theorem forall2_find {R : α → β → Prop} {xs : List α} {ys : List β}
    (h : List.Forall₂ R xs ys) (p : α → Bool) (q : β → Bool)
    (hpq : ∀ a b, R a b → p a = q b) {x : α}
    (hx : xs.find? p = some x) : ∃ y, ys.find? q = some y ∧ R x y := by
  induction h with
  | nil => simp [List.find?] at hx
  | @cons a b as bs hr ht ih =>
    by_cases hp : p a = true
    · rw [List.find?_cons_of_pos _ hp] at hx
      refine ⟨b, ?_, ?_⟩
      · rw [List.find?_cons_of_pos _ ((hpq a b hr).symm.trans hp)]
      · cases hx
        exact hr
    · rw [List.find?_cons_of_neg _ hp] at hx
      obtain ⟨y, hy, hr2⟩ := ih hx
      refine ⟨y, ?_, hr2⟩
      rw [List.find?_cons_of_neg _ fun hc => hp ((hpq a b hr).trans hc)]
      exact hy

theorem forall2_mem_right {R : α → β → Prop} {xs : List α} {ys : List β}
    (h : List.Forall₂ R xs ys) {y : β} (hy : y ∈ ys) : ∃ x, x ∈ xs ∧ R x y := by
  induction h with
  | nil => cases hy
  | @cons a b as bs hr ht ih =>
    rcases List.mem_cons.mp hy with rfl | hy2
    · exact ⟨a, List.mem_cons_self a as, hr⟩
    · obtain ⟨x, hx, hr2⟩ := ih hy2
      exact ⟨x, List.mem_cons_of_mem a hx, hr2⟩

theorem forall2_mem_left {R : α → β → Prop} {xs : List α} {ys : List β}
    (h : List.Forall₂ R xs ys) {x : α} (hx : x ∈ xs) : ∃ y, y ∈ ys ∧ R x y := by
  induction h with
  | nil => cases hx
  | @cons a b as bs hr ht ih =>
    rcases List.mem_cons.mp hx with rfl | hx2
    · exact ⟨b, List.mem_cons_self b bs, hr⟩
    · obtain ⟨y, hy, hr2⟩ := ih hx2
      exact ⟨y, List.mem_cons_of_mem b hy, hr2⟩

theorem forall2_lookup (R : γ → δ → Prop) {ps : List (String × γ)}
    {qs : List (String × δ)}
    (h : List.Forall₂ (fun p q => p.1 = q.1 ∧ R p.2 q.2) ps qs) {k : String} {v : γ}
    (hv : ps.lookup k = some v) : ∃ w, qs.lookup k = some w ∧ R v w := by
  induction h with
  | nil => simp [List.lookup] at hv
  | @cons p q ps2 qs2 hr ht ih =>
    obtain ⟨h1, h2⟩ := hr
    obtain ⟨a, b⟩ := p
    obtain ⟨c, d⟩ := q
    simp only at h1 h2
    subst h1
    by_cases hk : (k == a) = true
    · simp only [List.lookup, hk] at hv ⊢
      cases hv
      exact ⟨d, rfl, h2⟩
    · simp only [List.lookup, Bool.of_not_eq_true hk] at hv ⊢
      exact ih hv

theorem mapE_pair_fst {g : (String × γ) → Except Diagnostic δ}
    {ps : List (String × γ)} {qs : List (String × δ)}
    (h : mapE (fun p => (g p).map (fun v => (p.1, v))) ps = .ok qs) :
    qs.map Prod.fst = ps.map Prod.fst := by
  induction ps generalizing qs with
  | nil =>
    simp [mapE] at h
    subst h
    rfl
  | cons p ps2 ih =>
    obtain ⟨y, ys2, h1, h2, rfl⟩ := mapE_cons_ok h
    cases hg : g p with
    | error e => rw [hg] at h1; simp [Except.map] at h1
    | ok w =>
      rw [hg] at h1
      simp only [Except.map] at h1
      cases h1
      simp [ih h2]

theorem except_map_ok {e : Except Diagnostic δ} {f : δ → ε} {y : ε}
    (h : e.map f = .ok y) : ∃ w, e = .ok w ∧ y = f w := by
  cases hg : e with
  | error e2 => rw [hg] at h; simp [Except.map] at h
  | ok w =>
    rw [hg] at h
    simp only [Except.map] at h
    cases h
    exact ⟨w, rfl, rfl⟩

theorem validateToken_parts {t : TokenRaw} {vt : VToken}
    (h : validateToken t = .ok vt) :
    vt.id = t.id ∧ vt.type = t.type ∧ vt.group = t.group ∧ vt.span = t.span ∧
    ∃ b os, validateValue t.type t.value = .ok b ∧
      mapE (fun p => (validateValue t.type p.2).map (fun v => (p.1, v))) t.modes
        = .ok os ∧
      vt.vmodes = (".", b) :: os := by
  cases h1 : validateValue t.type t.value with
  | error e => simp [validateToken, h1, Bind.bind, Except.bind] at h
  | ok b =>
    cases h2 : mapE (fun p => (validateValue t.type p.2).map (fun v => (p.1, v)))
        t.modes with
    | error e => simp [validateToken, h1, h2, Bind.bind, Except.bind] at h
    | ok os =>
      simp only [validateToken, h1, h2, Bind.bind, Except.bind] at h
      cases h
      exact ⟨rfl, rfl, rfl, rfl, b, os, rfl, rfl, rfl⟩

theorem resolveToken_parts {ctx : List VToken} {fuel : Nat} {vt : VToken}
    {nt : NormalizedToken} (h : resolveToken ctx fuel vt = .ok nt) :
    nt.id = vt.id ∧ nt.type = vt.type ∧ nt.group = vt.group ∧ nt.span = vt.span ∧
    (∃ ms, mapE (fun p =>
        (resolveEntry ctx fuel vt.span vt.type p.2).map (fun v => (p.1, v)))
        vt.vmodes = .ok ms ∧ nt.modes = ms) ∧
    nt.aliasOf = (match vt.vmodes.lookup "." with
      | some (.alias r) => some r.targetId
      | _ => none) := by
  cases h1 : mapE (fun p =>
      (resolveEntry ctx fuel vt.span vt.type p.2).map (fun v => (p.1, v)))
      vt.vmodes with
  | error e => simp [resolveToken, h1, Bind.bind, Except.bind] at h
  | ok ms =>
    simp only [resolveToken, h1, Bind.bind, Except.bind] at h
    cases h
    exact ⟨rfl, rfl, rfl, rfl, ⟨ms, rfl, rfl⟩, rfl⟩

theorem resolveVal_scalar {ctx : List VToken} {sp : SourceSpan} {fuel : Nat}
    {v : Val} (h : v.isScalar = true) :
    resolveVal ctx sp (fuel + 1) v = .ok v := by
  cases v <;> simp [Val.isScalar] at h <;> rfl

theorem resolveEntry_scalar {ctx : List VToken} {fuel : Nat} {sp : SourceSpan}
    {tt : TokenType} {v : Val} (h : v.isScalar = true) :
    resolveEntry ctx (fuel + 1) sp tt v = .ok v := by
  cases v <;> simp [Val.isScalar] at h <;>
    simp [resolveEntry, resolveVal_scalar, Val.isScalar]

theorem aliasSplit_no_hash {cs : List Char} (h : hashCh ∉ cs) :
    aliasSplit cs = (cs, none) := by
  induction cs with
  | nil => rfl
  | cons c cs2 ih =>
    have hc : ¬c = hashCh := fun hc => h (hc ▸ List.mem_cons_self c cs2)
    have h2 : hashCh ∉ cs2 := fun hm => h (List.mem_cons_of_mem c hm)
    simp [aliasSplit, hc, ih h2]

theorem braces_data (B : String) :
    ("\x7b" ++ B ++ "\x7d").data = lbrace :: (B.data ++ [rbrace]) := by
  cases B
  rfl

theorem validate_alias_str (tt : TokenType) (B : String) (sp : SourceSpan)
    (h : hashCh ∉ B.data) :
    validateValue tt (.str ("\x7b" ++ B ++ "\x7d") sp) = .ok (.alias ⟨B, none⟩) := by
  have hp : parseAliasStr ("\x7b" ++ B ++ "\x7d") = some ⟨B, none⟩ := by
    simp only [parseAliasStr, braces_data, List.getLast?_concat, List.dropLast_concat,
      aliasSplit_no_hash h]
    rfl
  simp only [validateValue, withAlias, aliasCheck, braces_data, List.head?, hp]
  rfl

theorem mapE_pair_forall2 {g : (String × γ) → Except Diagnostic δ}
    {ps : List (String × γ)} {qs : List (String × δ)}
    (h : mapE (fun p => (g p).map (fun v => (p.1, v))) ps = .ok qs) :
    List.Forall₂ (fun p q => p.1 = q.1 ∧ g p = .ok q.2) ps qs := by
  refine (mapE_ok_forall2 h).imp ?_
  intro p q hpq
  obtain ⟨w, hw, rfl⟩ := except_map_ok hpq
  exact ⟨rfl, hw⟩

theorem aliasSplit_hash {p m : List Char} (h : hashCh ∉ p) :
    aliasSplit (p ++ hashCh :: m) = (p, some m) := by
  induction p with
  | nil => simp [aliasSplit]
  | cons c cs ih =>
    have hc : ¬c = hashCh := fun hc => h (hc ▸ List.mem_cons_self c cs)
    have h2 : hashCh ∉ cs := fun hm => h (List.mem_cons_of_mem c hm)
    simp [aliasSplit, hc, ih h2]

theorem mode_braces_data (p m : String) :
    ("\x7b" ++ p ++ "#" ++ m ++ "\x7d").data
      = lbrace :: (((p.data ++ [hashCh]) ++ m.data) ++ [rbrace]) := by
  cases p
  cases m
  rfl

theorem parseAlias_no_mode (p : String) (h : hashCh ∉ p.data) :
    parseAliasStr ("\x7b" ++ p ++ "\x7d") = some ⟨p, none⟩ := by
  simp only [parseAliasStr, braces_data, List.getLast?_concat, List.dropLast_concat,
    aliasSplit_no_hash h]
  rfl

theorem parseAlias_mode (p m : String) (h : hashCh ∉ p.data) :
    parseAliasStr ("\x7b" ++ p ++ "#" ++ m ++ "\x7d") = some ⟨p, some m⟩ := by
  have hassoc : (p.data ++ [hashCh]) ++ m.data = p.data ++ hashCh :: m.data := by
    simp [List.append_assoc]
  simp only [parseAliasStr, mode_braces_data, List.getLast?_concat,
    List.dropLast_concat, hassoc, aliasSplit_hash h]
  rfl

theorem validate_alias_mode_str (tt : TokenType) (p m : String) (sp : SourceSpan)
    (h : hashCh ∉ p.data) :
    validateValue tt (.str ("\x7b" ++ p ++ "#" ++ m ++ "\x7d") sp)
      = .ok (.alias ⟨p, some m⟩) := by
  simp only [validateValue, withAlias, aliasCheck, mode_braces_data, List.head?,
    parseAlias_mode p m h]
  rfl

/-- C1: Alias round-trip. For every document whose grouping pass collects a
token A whose raw value is exactly the alias string of token B and a token B
whose value validates to a literal scalar, a successful pipeline run yields a
table in which the base-mode value of A equals the base-mode value of B and
the aliasOf field of A is set to the id of B. -/
theorem c1_alias_roundtrip
    (doc : RawNode) (table : List NormalizedToken) (A B : String)
    (toks : List TokenRaw) (tA tB : TokenRaw) (spA : SourceSpan) (v : Val)
    (hparse : parseDocument doc = .ok table)
    (hwalk : walkNode [] none none doc = .ok toks)
    (hA : toks.find? (fun t => t.id == A) = some tA)
    (hAv : tA.value = .str ("\x7b" ++ B ++ "\x7d") spA)
    (hB : toks.find? (fun t => t.id == B) = some tB)
    (hBv : validateValue tB.type tB.value = .ok v)
    (hscal : v.isScalar = true)
    (hhash : hashCh ∉ B.data) :
    ∃ ntA ntB,
      table.find? (fun t => t.id == A) = some ntA ∧
      table.find? (fun t => t.id == B) = some ntB ∧
      ntA.modes.lookup "." = some v ∧
      ntB.modes.lookup "." = some v ∧
      ntA.aliasOf = some B := by
  simp only [parseDocument, hwalk, Bind.bind, Except.bind] at hparse
  cases hv : mapE validateToken toks with
  | error e => rw [hv] at hparse; exact absurd hparse (by simp)
  | ok vts =>
  rw [hv] at hparse
  replace hparse : mapE (resolveToken vts (totalFuel vts)) vts = .ok table := hparse
  have hf1 := mapE_ok_forall2 hv
  have hf2 := mapE_ok_forall2 hparse
  obtain ⟨vtA, hvA, hvalA⟩ := forall2_find hf1 (fun t => t.id == A)
    (fun vt => vt.id == A) (fun t vt h => by simp only [(validateToken_parts h).1]) hA
  obtain ⟨vtB, hvB, hvalB⟩ := forall2_find hf1 (fun t => t.id == B)
    (fun vt => vt.id == B) (fun t vt h => by simp only [(validateToken_parts h).1]) hB
  obtain ⟨ntA, hnA, hresA⟩ := forall2_find hf2 (fun vt => vt.id == A)
    (fun nt => nt.id == A) (fun vt nt h => by simp only [(resolveToken_parts h).1]) hvA
  obtain ⟨ntB, hnB, hresB⟩ := forall2_find hf2 (fun vt => vt.id == B)
    (fun nt => nt.id == B) (fun vt nt h => by simp only [(resolveToken_parts h).1]) hvB
  obtain ⟨hidA, htyA, _, _, bA, osA, hbA, hosA, hmA⟩ := validateToken_parts hvalA
  obtain ⟨hidB, htyB, _, _, bB, osB, hbB, hosB, hmB⟩ := validateToken_parts hvalB
  rw [hAv, validate_alias_str tA.type B spA hhash] at hbA
  injection hbA with hbA2
  rw [hBv] at hbB
  injection hbB with hbB2
  subst hbA2
  subst hbB2
  have hfind : findToken vts B = some vtB := hvB
  have hF : totalFuel vts
      = ((vts.map (fun t => 1 + valSizeFields t.vmodes)).sum + 1) + 1 := rfl
  have hlook : lookupVal vts ⟨B, none⟩ = some v := by
    simp only [lookupVal, hfind, Option.bind, Option.getD]
    rw [hmB]
    rfl
  -- resolve A
  obtain ⟨_, _, _, _, ⟨msA, hmsA, hmodA⟩, haliasA⟩ := resolveToken_parts hresA
  rw [hmA] at hmsA
  obtain ⟨y, ys2, hy, _, rfl⟩ := mapE_cons_ok hmsA
  obtain ⟨w, hw, hyw⟩ := except_map_ok hy
  simp only [resolveEntry, hfind] at hw
  by_cases hty : vtB.type = vtA.type
  · rw [if_pos hty] at hw
    rw [hF] at hw
    simp only [resolveVal, hlook] at hw
    rw [resolveVal_scalar hscal] at hw
    injection hw with hw2
    subst hw2
    -- resolve B
    obtain ⟨_, _, _, _, ⟨msB, hmsB, hmodB⟩, _⟩ := resolveToken_parts hresB
    rw [hmB] at hmsB
    obtain ⟨y2, ys3, hy2, _, rfl⟩ := mapE_cons_ok hmsB
    obtain ⟨w2, hw2, hyw2⟩ := except_map_ok hy2
    rw [hF] at hw2
    rw [resolveEntry_scalar hscal] at hw2
    injection hw2 with hw3
    subst hw3
    refine ⟨ntA, ntB, hnA, hnB, ?_, ?_, ?_⟩
    · rw [hmodA, hyw]
      rfl
    · rw [hmodB, hyw2]
      rfl
    · rw [haliasA, hmA]
      rfl
  · rw [if_neg hty] at hw
    exact absurd hw (by simp)

/-- Witness for C1 at the alias test document: the pipeline succeeds and the
aliasing token receives the literal 700 of its target together with
aliasOf. -/
theorem c1_alias_roundtrip_witness :
    parseDocument demoDoc1 = .ok demoTable1 ∧
    ∃ ntA ntB,
      demoTable1.find? (fun t => t.id == "bold") = some ntA ∧
      demoTable1.find? (fun t => t.id == "font.weight.bold") = some ntB ∧
      ntA.modes.lookup "." = some (.num 700) ∧
      ntB.modes.lookup "." = some (.num 700) ∧
      ntA.aliasOf = some "font.weight.bold" := by
  refine ⟨rfl, ?_⟩
  exact c1_alias_roundtrip demoDoc1 demoTable1 "bold" "font.weight.bold"
    demoToks1 demoTA1 demoTB1 (mkSp 8) (.num 700)
    rfl rfl rfl rfl rfl rfl rfl (by decide)

/-- C5: Mode-qualified alias targeting. Well-formed alias strings parse to
the referenced path with the optional target mode; during resolution, a
mode-qualified alias in any mode entry is substituted with the value the
target resolves to at that mode, while an unqualified alias is substituted
with the base-mode value of the target. -/
theorem c5_mode_qualified_alias
    (doc : RawNode) (table : List NormalizedToken) (toks : List TokenRaw)
    (hparse : parseDocument doc = .ok table)
    (hwalk : walkNode [] none none doc = .ok toks) :
    (∀ (p m : String), hashCh ∉ p.data →
      parseAliasStr ("\x7b" ++ p ++ "#" ++ m ++ "\x7d") = some ⟨p, some m⟩ ∧
      parseAliasStr ("\x7b" ++ p ++ "\x7d") = some ⟨p, none⟩) ∧
    (∀ (X P mname mm : String) (tX tP : TokenRaw) (rawPm : RawNode)
        (spX : SourceSpan) (v : Val),
      toks.find? (fun t => t.id == X) = some tX →
      (mname, RawNode.str ("\x7b" ++ P ++ "#" ++ mm ++ "\x7d") spX) ∈ tX.modes →
      toks.find? (fun t => t.id == P) = some tP →
      tP.modes.lookup mm = some rawPm →
      validateValue tP.type rawPm = .ok v →
      v.isScalar = true →
      hashCh ∉ P.data → mm ≠ "." →
      ∃ ntX ntP,
        table.find? (fun t => t.id == X) = some ntX ∧
        table.find? (fun t => t.id == P) = some ntP ∧
        (mname, v) ∈ ntX.modes ∧
        ntP.modes.lookup mm = some v) ∧
    (∀ (X P mname : String) (tX tP : TokenRaw) (spX : SourceSpan) (v : Val),
      toks.find? (fun t => t.id == X) = some tX →
      (mname, RawNode.str ("\x7b" ++ P ++ "\x7d") spX) ∈ tX.modes →
      toks.find? (fun t => t.id == P) = some tP →
      validateValue tP.type tP.value = .ok v →
      v.isScalar = true →
      hashCh ∉ P.data →
      ∃ ntX ntP,
        table.find? (fun t => t.id == X) = some ntX ∧
        table.find? (fun t => t.id == P) = some ntP ∧
        (mname, v) ∈ ntX.modes ∧
        ntP.modes.lookup "." = some v) := by
  simp only [parseDocument, hwalk, Bind.bind, Except.bind] at hparse
  cases hv : mapE validateToken toks with
  | error e => rw [hv] at hparse; exact absurd hparse (by simp)
  | ok vts =>
  rw [hv] at hparse
  replace hparse : mapE (resolveToken vts (totalFuel vts)) vts = .ok table := hparse
  have hf1 := mapE_ok_forall2 hv
  have hf2 := mapE_ok_forall2 hparse
  have hF : totalFuel vts
      = ((vts.map (fun t => 1 + valSizeFields t.vmodes)).sum + 1) + 1 := rfl
  refine ⟨fun p m hp => ⟨parseAlias_mode p m hp, parseAlias_no_mode p hp⟩, ?_, ?_⟩
  · intro X P mname mm tX tP rawPm spX v hX hmem hP hPm hval2 hscal hhashP hmm
    obtain ⟨vtX, hvX, hvalX⟩ := forall2_find hf1 (fun t => t.id == X)
      (fun vt => vt.id == X) (fun t vt h => by simp only [(validateToken_parts h).1]) hX
    obtain ⟨vtP, hvP, hvalP⟩ := forall2_find hf1 (fun t => t.id == P)
      (fun vt => vt.id == P) (fun t vt h => by simp only [(validateToken_parts h).1]) hP
    obtain ⟨ntX, hnX, hresX⟩ := forall2_find hf2 (fun vt => vt.id == X)
      (fun nt => nt.id == X) (fun vt nt h => by simp only [(resolveToken_parts h).1]) hvX
    obtain ⟨ntP, hnP, hresP⟩ := forall2_find hf2 (fun vt => vt.id == P)
      (fun nt => nt.id == P) (fun vt nt h => by simp only [(resolveToken_parts h).1]) hvP
    obtain ⟨_, _, _, _, bX, osX, hbX, hosX, hmX⟩ := validateToken_parts hvalX
    obtain ⟨_, _, _, _, bP, osP, hbP, hosP, hmP⟩ := validateToken_parts hvalP
    have hosP2 := mapE_pair_forall2 hosP
    obtain ⟨w, hwlook, hwval⟩ := forall2_lookup (fun x y => validateValue tP.type x = .ok y) hosP2 hPm
    rw [hval2] at hwval
    injection hwval with hwv
    subst hwv
    have hlookP : vtP.vmodes.lookup mm = some v := by
      rw [hmP]
      have hne : (mm == ".") = false := beq_eq_false_iff_ne.mpr hmm
      simp [List.lookup, hne, hwlook]
    have hfindP : findToken vts P = some vtP := hvP
    have hlookup : lookupVal vts ⟨P, some mm⟩ = some v := by
      simp only [lookupVal, hfindP, Option.bind, Option.getD]
      exact hlookP
    have hosX2 := mapE_pair_forall2 hosX
    obtain ⟨q, hqmem, hq1, hq2⟩ := forall2_mem_left hosX2 hmem
    rw [validate_alias_mode_str tX.type P mm spX hhashP] at hq2
    injection hq2 with hq2v
    obtain ⟨_, _, _, _, ⟨msX, hmsX, hmodX⟩, _⟩ := resolveToken_parts hresX
    have hresF := mapE_ok_forall2 hmsX
    have hqin : q ∈ vtX.vmodes := by
      rw [hmX]
      exact List.mem_cons_of_mem _ hqmem
    obtain ⟨r, hrmem, hr⟩ := forall2_mem_left hresF hqin
    obtain ⟨w2, hw2, hrw⟩ := except_map_ok hr
    rw [← hq2v] at hw2
    simp only [resolveEntry, hfindP] at hw2
    by_cases hty : vtP.type = vtX.type
    · rw [if_pos hty] at hw2
      rw [hF] at hw2
      simp only [resolveVal, hlookup] at hw2
      rw [resolveVal_scalar hscal] at hw2
      injection hw2 with hw2v
      subst hw2v
      obtain ⟨_, _, _, _, ⟨msP, hmsP, hmodP⟩, _⟩ := resolveToken_parts hresP
      have hresFP := mapE_pair_forall2 hmsP
      obtain ⟨w3, hw3look, hw3⟩ := forall2_lookup (fun x y => resolveEntry vts (totalFuel vts) vtP.span vtP.type x = .ok y) hresFP hlookP
      rw [hF] at hw3
      rw [resolveEntry_scalar hscal] at hw3
      injection hw3 with hw3v
      subst hw3v
      refine ⟨ntX, ntP, hnX, hnP, ?_, ?_⟩
      · rw [hmodX]
        have : (mname, v) = r := by rw [hrw, ← hq1]
        rw [this]
        exact hrmem
      · rw [hmodP]
        exact hw3look
    · rw [if_neg hty] at hw2
      exact absurd hw2 (by simp)
  · intro X P mname tX tP spX v hX hmem hP hval2 hscal hhashP
    obtain ⟨vtX, hvX, hvalX⟩ := forall2_find hf1 (fun t => t.id == X)
      (fun vt => vt.id == X) (fun t vt h => by simp only [(validateToken_parts h).1]) hX
    obtain ⟨vtP, hvP, hvalP⟩ := forall2_find hf1 (fun t => t.id == P)
      (fun vt => vt.id == P) (fun t vt h => by simp only [(validateToken_parts h).1]) hP
    obtain ⟨ntX, hnX, hresX⟩ := forall2_find hf2 (fun vt => vt.id == X)
      (fun nt => nt.id == X) (fun vt nt h => by simp only [(resolveToken_parts h).1]) hvX
    obtain ⟨ntP, hnP, hresP⟩ := forall2_find hf2 (fun vt => vt.id == P)
      (fun nt => nt.id == P) (fun vt nt h => by simp only [(resolveToken_parts h).1]) hvP
    obtain ⟨_, _, _, _, bX, osX, hbX, hosX, hmX⟩ := validateToken_parts hvalX
    obtain ⟨_, _, _, _, bP, osP, hbP, hosP, hmP⟩ := validateToken_parts hvalP
    rw [hval2] at hbP
    injection hbP with hbPv
    subst hbPv
    have hlookP : vtP.vmodes.lookup "." = some v := by
      rw [hmP]
      rfl
    have hfindP : findToken vts P = some vtP := hvP
    have hlookup : lookupVal vts ⟨P, none⟩ = some v := by
      simp only [lookupVal, hfindP, Option.bind, Option.getD]
      exact hlookP
    have hosX2 := mapE_pair_forall2 hosX
    obtain ⟨q, hqmem, hq1, hq2⟩ := forall2_mem_left hosX2 hmem
    rw [validate_alias_str tX.type P spX hhashP] at hq2
    injection hq2 with hq2v
    obtain ⟨_, _, _, _, ⟨msX, hmsX, hmodX⟩, _⟩ := resolveToken_parts hresX
    have hresF := mapE_ok_forall2 hmsX
    have hqin : q ∈ vtX.vmodes := by
      rw [hmX]
      exact List.mem_cons_of_mem _ hqmem
    obtain ⟨r, hrmem, hr⟩ := forall2_mem_left hresF hqin
    obtain ⟨w2, hw2, hrw⟩ := except_map_ok hr
    rw [← hq2v] at hw2
    simp only [resolveEntry, hfindP] at hw2
    by_cases hty : vtP.type = vtX.type
    · rw [if_pos hty] at hw2
      rw [hF] at hw2
      simp only [resolveVal, hlookup] at hw2
      rw [resolveVal_scalar hscal] at hw2
      injection hw2 with hw2v
      subst hw2v
      obtain ⟨_, _, _, _, ⟨msP, hmsP, hmodP⟩, _⟩ := resolveToken_parts hresP
      have hresFP := mapE_pair_forall2 hmsP
      obtain ⟨w3, hw3look, hw3⟩ := forall2_lookup (fun x y => resolveEntry vts (totalFuel vts) vtP.span vtP.type x = .ok y) hresFP hlookP
      rw [hF] at hw3
      rw [resolveEntry_scalar hscal] at hw3
      injection hw3 with hw3v
      subst hw3v
      refine ⟨ntX, ntP, hnX, hnP, ?_, ?_⟩
      · rw [hmodX]
        have : (mname, v) = r := by rw [hrw, ← hq1]
        rw [this]
        exact hrmem
      · rw [hmodP]
        exact hw3look
    · rw [if_neg hty] at hw2
      exact absurd hw2 (by simp)

/-- Witness for C5 at the mode demonstration document: the dark mode of the
referencing token receives the dark-mode 700 of the target, and the light
mode receives 400. -/
theorem c5_mode_qualified_alias_witness :
    parseDocument demoDoc2 = .ok demoTable2 ∧
    (∃ ntX ntP,
      demoTable2.find? (fun t => t.id == "x") = some ntX ∧
      demoTable2.find? (fun t => t.id == "p") = some ntP ∧
      ("dark", Val.num 700) ∈ ntX.modes ∧
      ntP.modes.lookup "dark" = some (.num 700)) := by
  refine ⟨rfl, ?_⟩
  exact ((c5_mode_qualified_alias demoDoc2 demoTable2 demoToks2 rfl rfl).2.1)
    "x" "p" "dark" "dark" demoTX2 demoTP2 (.num 700 (mkSp 7)) (mkSp 14) (.num 700)
    rfl (List.mem_cons_of_mem _ (List.mem_cons_self _ _)) rfl rfl rfl rfl (by decide)
    (by decide)

theorem takeDigits_stop {b : List Char}
    (hb : ∀ c, b.head? = some c → isDigitCh c = false) :
    takeDigits b = (0, b) := by
  cases b with
  | nil => rfl
  | cons c cs => simp [takeDigits, hb c rfl]

theorem takeDigits_append_stop {a b : List Char}
    (ha : ∀ c ∈ a, isDigitCh c = true)
    (hb : ∀ c, b.head? = some c → isDigitCh c = false) :
    takeDigits (a ++ b) = (a.length, b) := by
  induction a with
  | nil => simpa using takeDigits_stop hb
  | cons c cs ih =>
    have hc := ha c (List.mem_cons_self c cs)
    have ih2 := ih (fun d hd => ha d (List.mem_cons_of_mem c hd))
    simp [takeDigits, hc, ih2]

theorem numMagCore_eval {ints dot frac unit : List Char}
    (hint : ∀ c ∈ ints, isDigitCh c = true)
    (hdf : (dot = [] ∧ frac = []) ∨
      (dot = [Char.ofNat 46] ∧ ∀ c ∈ frac, isDigitCh c = true))
    (hne : ints ++ frac ≠ [])
    (hu : ∀ c, unit.head? = some c → isDigitCh c = false ∧ c ≠ Char.ofNat 46) :
    numMagCore (ints ++ (dot ++ (frac ++ unit)))
      = ints.length + dot.length + frac.length := by
  rcases hdf with ⟨rfl, rfl⟩ | ⟨rfl, hfrac⟩
  · have hne2 : ints ≠ [] := by simpa using hne
    have hlen : ints.length ≠ 0 := fun h0 => hne2 (List.length_eq_zero.mp h0)
    have htd : takeDigits (ints ++ unit) = (ints.length, unit) :=
      takeDigits_append_stop hint (fun c hc => (hu c hc).1)
    simp only [List.nil_append, List.length_nil]
    cases unit with
    | nil =>
      simp only [List.append_nil] at htd ⊢
      simp [numMagCore, htd, hlen]
    | cons u us =>
      have hu2 := hu u rfl
      simp [numMagCore, htd, hlen, hu2.2]
  · have htd : takeDigits (ints ++ (Char.ofNat 46 :: (frac ++ unit)))
        = (ints.length, Char.ofNat 46 :: (frac ++ unit)) :=
      takeDigits_append_stop hint (fun c hc => by
        cases hc
        decide)
    have htd2 : takeDigits (frac ++ unit) = (frac.length, unit) :=
      takeDigits_append_stop hfrac (fun c hc => (hu c hc).1)
    have hlen : ¬ints.length + frac.length = 0 := by
      intro h0
      rcases Nat.add_eq_zero.mp h0 with ⟨h1, h2⟩
      exact hne (by rw [List.length_eq_zero.mp h1, List.length_eq_zero.mp h2]; rfl)
    simp only [List.singleton_append]
    simp [numMagCore, htd, htd2, hlen]

theorem numMagLen_no_sign {cs : List Char}
    (h : ∀ c, cs.head? = some c → ¬(c = Char.ofNat 45 ∨ c = Char.ofNat 43)) :
    numMagLen cs = numMagCore cs := by
  cases cs with
  | nil => simp [numMagLen, numMagCore, takeDigits]
  | cons c cs2 => simp [numMagLen, h c rfl]

theorem numMag_decomp_len (unit : List Char) {sgn ints dot frac : List Char}
    (hsgn : sgn = [] ∨ sgn = [Char.ofNat 45] ∨ sgn = [Char.ofNat 43])
    (hint : ∀ c ∈ ints, isDigitCh c = true)
    (hdf : (dot = [] ∧ frac = []) ∨
      (dot = [Char.ofNat 46] ∧ ∀ c ∈ frac, isDigitCh c = true))
    (hne : ints ++ frac ≠ [])
    (hu : ∀ c, unit.head? = some c → isDigitCh c = false ∧ c ≠ Char.ofNat 46) :
    numMagLen ((sgn ++ (ints ++ (dot ++ frac))) ++ unit)
      = (sgn ++ (ints ++ (dot ++ frac))).length := by
  have hcore := numMagCore_eval hint hdf hne hu
  have hpos : 0 < ints.length + dot.length + frac.length := by
    rcases List.exists_mem_of_ne_nil _ hne with ⟨c, hc⟩
    rcases List.mem_append.mp hc with h1 | h2
    · have := List.length_pos.mpr (List.ne_nil_of_mem h1)
      omega
    · have := List.length_pos.mpr (List.ne_nil_of_mem h2)
      omega
  have hassoc : (sgn ++ (ints ++ (dot ++ frac))) ++ unit
      = sgn ++ (ints ++ (dot ++ (frac ++ unit))) := by
    simp [List.append_assoc]
  rw [hassoc]
  have hhead : ∀ c, (ints ++ (dot ++ (frac ++ unit))).head? = some c →
      ¬(c = Char.ofNat 45 ∨ c = Char.ofNat 43) := by
    intro c hc hor
    have hcv : c.toNat = 45 ∨ c.toNat = 43 := by
      rcases hor with rfl | rfl
      · left; rfl
      · right; rfl
    cases ints with
    | cons i is =>
      simp only [List.cons_append, List.head?] at hc
      cases hc
      have := hint c (List.mem_cons_self c is)
      simp only [isDigitCh, Bool.and_eq_true, decide_eq_true_eq] at this
      omega
    | nil =>
      rcases hdf with ⟨rfl, rfl⟩ | ⟨rfl, hfrac⟩
      · simp at hne
      · simp only [List.nil_append, List.singleton_append, List.head?] at hc
        cases hc
        simp at hcv
  rcases hsgn with rfl | rfl | rfl
  · rw [List.nil_append, numMagLen_no_sign hhead, hcore]
    simp only [List.nil_append, List.length_append, List.length_nil]
    omega
  · have hstep : numMagLen (Char.ofNat 45 :: (ints ++ (dot ++ (frac ++ unit))))
        = 1 + numMagCore (ints ++ (dot ++ (frac ++ unit))) := by
      rw [numMagLen]
      simp only [if_pos (Or.inl rfl)]
      rw [hcore]
      rcases Nat.exists_eq_add_of_lt hpos with ⟨k, hk⟩
      rw [hk]
      simp
      omega
    simp only [List.singleton_append] at hstep ⊢
    rw [hstep, hcore]
    simp
    omega
  · have hstep : numMagLen (Char.ofNat 43 :: (ints ++ (dot ++ (frac ++ unit))))
        = 1 + numMagCore (ints ++ (dot ++ (frac ++ unit))) := by
      rw [numMagLen]
      simp only [if_pos (Or.inr rfl)]
      rw [hcore]
      rcases Nat.exists_eq_add_of_lt hpos with ⟨k, hk⟩
      rw [hk]
      simp
      omega
    simp only [List.singleton_append] at hstep ⊢
    rw [hstep, hcore]
    simp
    omega

theorem numMag_pos {mag : List Char} (h : NumericMag mag) : 0 < mag.length := by
  obtain ⟨sgn, ints, dot, frac, rfl, hsgn, hint, hdf, hne⟩ := h
  rcases List.exists_mem_of_ne_nil _ hne with ⟨c, hc⟩
  rcases List.mem_append.mp hc with h1 | h2
  · have := List.length_pos.mpr (List.ne_nil_of_mem h1)
    simp [List.length_append]
    omega
  · have := List.length_pos.mpr (List.ne_nil_of_mem h2)
    simp [List.length_append]
    omega

theorem numMag_append_head {mag : List Char} (h : NumericMag mag)
    (unit : List Char) :
    ∀ c, (mag ++ unit).head? = some c → c ≠ lbrace := by
  obtain ⟨sgn, ints, dot, frac, rfl, hsgn, hint, hdf, hne⟩ := h
  intro c hc heq
  subst heq
  rcases hsgn with rfl | rfl | rfl
  · cases ints with
    | cons i is =>
      simp only [List.nil_append, List.cons_append, List.head?] at hc
      have hi : i = lbrace := Option.some.inj hc
      have := hint i (List.mem_cons_self i is)
      rw [hi] at this
      exact absurd this (by decide)
    | nil =>
      rcases hdf with ⟨rfl, rfl⟩ | ⟨rfl, hfrac⟩
      · simp at hne
      · simp only [List.nil_append, List.singleton_append, List.cons_append,
          List.head?] at hc
        exact absurd hc (by decide)
  · simp only [List.singleton_append, List.cons_append, List.head?] at hc
    exact absurd hc (by decide)
  · simp only [List.singleton_append, List.cons_append, List.head?] at hc
    exact absurd hc (by decide)

theorem validate_not_brace {tt : TokenType} {s : String} {sp : SourceSpan}
    (hc : ∀ c, s.data.head? = some c → c ≠ lbrace) :
    validateValue tt (.str s sp) = validateBody tt (.str s sp) := by
  simp only [validateValue, withAlias, aliasCheck]
  cases hh : s.data.head? with
  | none => rfl
  | some c => simp [hc c hh]

/-- C2: The dimension validator. A non-empty string made of a numeric
magnitude followed by a non-numeric unit suffix is returned unchanged, and
the literal number 0 is returned as 0; a non-zero number or any non-string
raw node raises the expected-string type error naming the received type; an
empty string, a string with no leading numeric magnitude, and a string that
is entirely a numeric magnitude raise the three dimension errors in the
stated priority order. -/
theorem c2_dimension_validator :
    (∀ (s : String) (sp : SourceSpan) (mag unit : List Char),
      s.data = mag ++ unit →
      NumericMag mag →
      unit ≠ [] →
      (∀ c, unit.head? = some c → isDigitCh c = false ∧ c ≠ Char.ofNat 46) →
      validateValue .dimension (.str s sp) = .ok (.str s)) ∧
    (∀ sp, validateValue .dimension (.num 0 sp) = .ok (.num 0)) ∧
    (∀ (q : ℚ) (sp : SourceSpan), ¬q = 0 →
      validateValue .dimension (.num q sp)
        = .error ⟨.typeError, "Expected string, received Number", sp⟩) ∧
    (∀ (b : Bool) (sp : SourceSpan),
      validateValue .dimension (.boolean b sp)
        = .error ⟨.typeError, "Expected string, received Boolean", sp⟩) ∧
    (∀ (items : RawSeq) (sp : SourceSpan),
      validateValue .dimension (.seq items sp)
        = .error ⟨.typeError, "Expected string, received Array", sp⟩) ∧
    (∀ (entries : RawMap) (sp : SourceSpan),
      validateValue .dimension (.map entries sp)
        = .error ⟨.typeError, "Expected string, received Object", sp⟩) ∧
    (∀ sp, validateValue .dimension (.str "" sp)
        = .error ⟨.typeError, "Expected dimension, received empty string", sp⟩) ∧
    (∀ (s : String) (sp : SourceSpan), ¬s.data = [] → numMagLen s.data = 0 →
      (∀ c, s.data.head? = some c → c ≠ lbrace) →
      validateValue .dimension (.str s sp)
        = .error ⟨.typeError,
            "Expected dimension with units, received \"" ++ s ++ "\"", sp⟩) ∧
    (∀ (s : String) (sp : SourceSpan), NumericMag s.data →
      validateValue .dimension (.str s sp)
        = .error ⟨.typeError, "Missing units", sp⟩) := by
  refine ⟨?_, fun sp => rfl, ?_, fun b sp => rfl, fun items sp => rfl,
    fun entries sp => rfl, fun sp => rfl, ?_, ?_⟩
  · intro s sp mag unit hs hmag hune hu
    have hlb : ∀ c, s.data.head? = some c → c ≠ lbrace := by
      intro c hc
      exact numMag_append_head hmag unit c (hs ▸ hc)
    rw [validate_not_brace hlb]
    obtain ⟨sgn, ints, dot, frac, hmageq, hsgn, hint, hdf, hne⟩ := hmag
    have hlen : numMagLen s.data = mag.length := by
      rw [hs, hmageq]
      exact numMag_decomp_len unit hsgn hint hdf hne hu
    have hpos : 0 < mag.length := numMag_pos ⟨sgn, ints, dot, frac, hmageq, hsgn, hint, hdf, hne⟩
    have hne0 : ¬s.data = [] := by
      rw [hs]
      intro h0
      exact hune (List.append_eq_nil.mp h0).2
    have hunepos : 0 < unit.length := List.length_pos.mpr hune
    have hslen : s.data.length = mag.length + unit.length := by
      rw [hs, List.length_append]
    simp only [validateBody, dimensionBody, hlen, hne0, if_false]
    rw [if_neg (by omega : ¬mag.length = 0),
      if_neg (by omega : ¬mag.length = s.data.length)]
  · intro q sp hq
    simp [validateValue, withAlias, aliasCheck, validateBody, dimensionBody, hq]
  · intro s sp hne hk hlb
    rw [validate_not_brace hlb]
    simp only [validateBody, dimensionBody, hk]
    simp [hne]
  · intro s sp hmag
    have hlb : ∀ c, s.data.head? = some c → c ≠ lbrace := by
      intro c hc
      refine numMag_append_head hmag [] c ?_
      rw [List.append_nil]
      exact hc
    rw [validate_not_brace hlb]
    obtain ⟨sgn, ints, dot, frac, hmageq, hsgn, hint, hdf, hne⟩ := hmag
    have hlen : numMagLen s.data = s.data.length := by
      have h2 := numMag_decomp_len [] hsgn hint hdf hne
        (fun c hc => absurd hc (by simp))
      rw [List.append_nil] at h2
      rw [hmageq]
      exact h2
    have hpos : 0 < s.data.length :=
      numMag_pos ⟨sgn, ints, dot, frac, hmageq, hsgn, hint, hdf, hne⟩
    have hne0 : ¬s.data = [] := fun h0 => by
      rw [h0] at hpos
      exact absurd hpos (by simp)
    simp only [validateBody, dimensionBody, hlen]
    rw [if_neg hne0]
    rw [if_neg (show ¬s.data.length = 0 by omega)]
    simp

/-- Witness for C2 at the test-suite inputs: 0.5rem accepted unchanged, the
number 0 accepted, 42 and the three malformed strings rejected with the
recorded messages. -/
theorem c2_dimension_validator_witness :
    validateValue .dimension (.str "0.5rem" (mkSp 1)) = .ok (.str "0.5rem") ∧
    validateValue .dimension (.num 0 (mkSp 1)) = .ok (.num 0) ∧
    validateValue .dimension (.num 42 (mkSp 1))
      = .error ⟨.typeError, "Expected string, received Number", mkSp 1⟩ ∧
    validateValue .dimension (.str "" (mkSp 1))
      = .error ⟨.typeError, "Expected dimension, received empty string", mkSp 1⟩ ∧
    validateValue .dimension (.str "rem" (mkSp 1))
      = .error ⟨.typeError, "Expected dimension with units, received \"rem\"", mkSp 1⟩ ∧
    validateValue .dimension (.str "16" (mkSp 1))
      = .error ⟨.typeError, "Missing units", mkSp 1⟩ := by
  refine ⟨?_, c2_dimension_validator.2.1 (mkSp 1), ?_, c2_dimension_validator.2.2.2.2.2.2.1 (mkSp 1), ?_, ?_⟩
  · exact c2_dimension_validator.1 "0.5rem" (mkSp 1)
      [Char.ofNat 48, Char.ofNat 46, Char.ofNat 53]
      [Char.ofNat 114, Char.ofNat 101, Char.ofNat 109]
      (by decide)
      ⟨[], [Char.ofNat 48], [Char.ofNat 46], [Char.ofNat 53], by decide,
        Or.inl rfl, by decide, Or.inr ⟨rfl, by decide⟩, by decide⟩
      (by decide) (by decide)
  · exact c2_dimension_validator.2.2.1 42 (mkSp 1) (by norm_num)
  · exact c2_dimension_validator.2.2.2.2.2.2.2.1 "rem" (mkSp 1) (by decide)
      (by decide) (by decide)
  · exact c2_dimension_validator.2.2.2.2.2.2.2.2 "16" (mkSp 1)
      ⟨[], [Char.ofNat 49, Char.ofNat 54], [], [], by decide, Or.inl rfl,
        by decide, Or.inl ⟨rfl, rfl⟩, by decide⟩

theorem lookup_mem {l : List (String × ℚ)} {n : String} {w : ℚ}
    (h : l.lookup n = some w) : (n, w) ∈ l := by
  induction l with
  | nil => simp [List.lookup] at h
  | cons p rest ih =>
    obtain ⟨k, v⟩ := p
    by_cases hk : (n == k) = true
    · simp only [List.lookup, hk] at h
      cases h
      rw [eq_of_beq hk]
      exact List.mem_cons_self _ _
    · simp only [List.lookup, Bool.of_not_eq_true hk] at h
      exact List.mem_cons_of_mem _ (ih h)

/-- C4: The fontWeight validator. Every number between 0 and 1000 is accepted
unchanged; the weight-name table holds exactly the 18 names of the spec with
their numeric weights and a successful name lookup returns that weight; an
unknown name raises the range error listing all 18 names comma-joined with
the last joined by or; a number out of range raises the expected-number
range error naming the received value. -/
theorem c4_fontWeight_validator :
    (∀ (q : ℚ) (sp : SourceSpan), 0 ≤ q → q ≤ 1000 →
      validateValue .fontWeight (.num q sp) = .ok (.num q)) ∧
    fwTable = [("thin", 100), ("hairline", 100), ("extra-light", 200),
      ("ultra-light", 200), ("light", 300), ("normal", 400), ("regular", 400),
      ("book", 400), ("medium", 500), ("semi-bold", 600), ("demi-bold", 600),
      ("bold", 700), ("extra-bold", 800), ("ultra-bold", 800), ("black", 900),
      ("heavy", 900), ("extra-black", 950), ("ultra-black", 950)] ∧
    (∀ (name : String) (w : ℚ) (sp : SourceSpan), fwTable.lookup name = some w →
      validateValue .fontWeight (.str name sp) = .ok (.num w)) ∧
    joinOr fwNames
      = "thin, hairline, extra-light, ultra-light, light, normal, regular, book, medium, semi-bold, demi-bold, bold, extra-bold, ultra-bold, black, heavy, extra-black, or ultra-black" ∧
    (∀ (s : String) (sp : SourceSpan),
      (∀ c, s.data.head? = some c → c ≠ lbrace) →
      fwTable.lookup s = none →
      validateValue .fontWeight (.str s sp)
        = .error ⟨.rangeError,
            "Unknown font weight \"" ++ s ++ "\". Expected one of: "
              ++ joinOr fwNames ++ ".", sp⟩) ∧
    (∀ (q : ℚ) (sp : SourceSpan), q < 0 ∨ 1000 < q →
      validateValue .fontWeight (.num q sp)
        = .error ⟨.rangeError,
            "Expected number 0–1000, received " ++ renderNum q, sp⟩) := by
  refine ⟨?_, rfl, ?_, rfl, ?_, ?_⟩
  · intro q sp h0 h1
    simp [validateValue, withAlias, aliasCheck, validateBody, fontWeightBody, h0, h1]
  · intro name w sp hlook
    have hmem := lookup_mem hlook
    have hall : ∀ p ∈ fwTable, ¬p.1.data.head? = some lbrace := by decide
    have hlb : ∀ c, name.data.head? = some c → c ≠ lbrace := by
      intro c hc heq
      exact hall (name, w) hmem (by rw [hc, heq])
    rw [validate_not_brace hlb]
    simp [validateBody, fontWeightBody, hlook]
  · intro s sp hlb hnone
    rw [validate_not_brace hlb]
    simp [validateBody, fontWeightBody, hnone]
  · intro q sp hq
    have hn : ¬(0 ≤ q ∧ q ≤ 1000) := by
      rcases hq with h | h
      · exact fun hc => absurd hc.1 (by linarith)
      · exact fun hc => absurd hc.2 (by linarith)
    simp [validateValue, withAlias, aliasCheck, validateBody, fontWeightBody, hn]

/-- Witness for C4 at the test-suite inputs: 700 accepted, the name bold maps
to 700, thinnish raises the full 18-name message ending in or ultra-black,
and 9001 raises the out-of-range message. -/
theorem c4_fontWeight_validator_witness :
    validateValue .fontWeight (.num 700 (mkSp 1)) = .ok (.num 700) ∧
    validateValue .fontWeight (.str "bold" (mkSp 1)) = .ok (.num 700) ∧
    validateValue .fontWeight (.str "thinnish" (mkSp 1))
      = .error ⟨.rangeError,
          "Unknown font weight \"thinnish\". Expected one of: thin, hairline, extra-light, ultra-light, light, normal, regular, book, medium, semi-bold, demi-bold, bold, extra-bold, ultra-bold, black, heavy, extra-black, or ultra-black.",
          mkSp 1⟩ ∧
    validateValue .fontWeight (.num 9001 (mkSp 1))
      = .error ⟨.rangeError, "Expected number 0–1000, received 9001", mkSp 1⟩ := by
  refine ⟨c4_fontWeight_validator.1 700 (mkSp 1) (by norm_num) (by norm_num),
    c4_fontWeight_validator.2.2.1 "bold" 700 (mkSp 1) rfl, ?_, ?_⟩
  · have := c4_fontWeight_validator.2.2.2.2.1 "thinnish" (mkSp 1)
      (by decide) rfl
    rw [this]
    rfl
  · have := c4_fontWeight_validator.2.2.2.2.2 9001 (mkSp 1) (by norm_num)
    rw [this]
    rfl

/-- C7: Invalid alias syntax. For every token type, a scalar string opening
with a brace but not closed by one is rejected by the validator itself with
the invalid-alias syntax error quoting the raw string, pinned to the span of
the scalar; a dangling reference, by contrast, is an alias error raised by
the resolver, a different diagnostic kind. -/
theorem c7_invalid_alias :
    (∀ (tt : TokenType) (s : String) (sp : SourceSpan),
      s.data.head? = some lbrace →
      ¬s.data.getLast? = some rbrace →
      validateValue tt (.str s sp)
        = .error ⟨.parseError, "Invalid alias: \"" ++ s ++ "\"", sp⟩) ∧
    (∀ (ctx : List VToken) (sp : SourceSpan) (fuel : Nat) (r : AliasRef),
      findToken ctx r.targetId = none →
      resolveVal ctx sp (fuel + 1) (.alias r)
        = .error ⟨.aliasError, "Dangling alias \"" ++ r.targetId ++ "\"", sp⟩) ∧
    DiagKind.parseError ≠ DiagKind.aliasError := by
  refine ⟨?_, ?_, by decide⟩
  · intro tt s sp hh hlast
    cases hdata : s.data with
    | nil => rw [hdata] at hh; exact absurd hh (by simp)
    | cons c rest =>
      rw [hdata] at hh
      have hc : c = lbrace := by
        simp only [List.head?] at hh
        exact Option.some.inj hh
      subst hc
      have hrest : ∀ d, rest.getLast? = some d → ¬d = rbrace := by
        intro d hd heq
        apply hlast
        rw [hdata]
        cases rest with
        | nil => exact absurd hd (by simp)
        | cons r2 rs =>
          rw [List.getLast?_cons_cons]
          rw [← heq]
          exact hd
      have hparse : parseAliasStr s = none := by
        simp only [parseAliasStr, hdata, if_pos rfl]
        cases hg : rest.getLast? with
        | none => rfl
        | some d => simp [hrest d hg]
      simp [validateValue, withAlias, aliasCheck, hdata, hparse]
  · intro ctx sp fuel r hfind
    simp [resolveVal, lookupVal, hfind]

/-- Witness for C7 at the bad-syntax test input: the unterminated alias
string raises the invalid-alias syntax error at the scalar span. -/
theorem c7_invalid_alias_witness :
    validateValue .string (.str "\x7bfoo.bar" (mkSp 3))
      = .error ⟨.parseError, "Invalid alias: \"\x7bfoo.bar\"", mkSp 3⟩ ∧
    DiagKind.parseError ≠ DiagKind.aliasError := by
  exact ⟨c7_invalid_alias.1 .string "\x7bfoo.bar" (mkSp 3) (by decide) (by decide),
    c7_invalid_alias.2.2⟩

theorem mapE_append_error {f : α → Except Diagnostic β} {pre : List α} {x : α}
    {post : List α} {d : Diagnostic}
    (hpre : ∀ n ∈ pre, ∃ y, f n = .ok y) (hx : f x = .error d) :
    mapE f (pre ++ x :: post) = .error d := by
  induction pre with
  | nil => simp [mapE, hx, Bind.bind, Except.bind]
  | cons a as ih =>
    obtain ⟨y, hy⟩ := hpre a (List.mem_cons_self a as)
    have ih2 := ih (fun n hn => hpre n (List.mem_cons_of_mem a hn))
    simp [mapE, hy, ih2, Bind.bind, Except.bind]

/-- C6: Missing required composite sub-fields. A border value object lacking
color, a transition lacking duration or lacking timingFunction, and a shadow
lacking color each raise the missing-property error pinned to the span of the
value object; a gradient stop lacking position raises the missing-property
error pinned to the span of that stop object, not to the enclosing array. -/
theorem c6_missing_property :
    (∀ (entries : RawMap) (sp : SourceSpan), entries.lookup "color" = none →
      validateValue .border (.map entries sp)
        = .error ⟨.missingProperty, "Missing required property \"color\"", sp⟩) ∧
    (∀ (entries : RawMap) (sp : SourceSpan), entries.lookup "duration" = none →
      validateValue .transition (.map entries sp)
        = .error ⟨.missingProperty, "Missing required property \"duration\"", sp⟩) ∧
    (∀ (entries : RawMap) (sp : SourceSpan) (d : RawNode),
      entries.lookup "duration" = some d →
      entries.lookup "timingFunction" = none →
      validateValue .transition (.map entries sp)
        = .error ⟨.missingProperty,
            "Missing required property \"timingFunction\"", sp⟩) ∧
    (∀ (entries : RawMap) (sp : SourceSpan), entries.lookup "color" = none →
      validateValue .shadow (.map entries sp)
        = .error ⟨.missingProperty, "Missing required property \"color\"", sp⟩) ∧
    (∀ (pre : List RawNode) (entries : RawMap) (ssp : SourceSpan)
        (post : List RawNode) (arrSp : SourceSpan),
      (∀ n ∈ pre, ∃ x, gradStop1 n = .ok x) →
      entries.lookup "position" = none →
      validateValue .gradient
          (.seq (listToSeq (pre ++ RawNode.map entries ssp :: post)) arrSp)
        = .error ⟨.missingProperty,
            "Missing required property \"position\"", ssp⟩) := by
  refine ⟨?_, ?_, ?_, ?_, ?_⟩
  · intro entries sp h
    simp [validateValue, withAlias, aliasCheck, validateBody, borderBody, h]
  · intro entries sp h
    simp [validateValue, withAlias, aliasCheck, validateBody, transitionBody, h]
  · intro entries sp d hd h
    simp [validateValue, withAlias, aliasCheck, validateBody, transitionBody, hd, h]
  · intro entries sp h
    simp [validateValue, withAlias, aliasCheck, validateBody, shadowBody,
      shadowLayer, h, Except.map]
  · intro pre entries ssp post arrSp hpre hpos
    have hstop : gradStop1 (.map entries ssp)
        = .error ⟨.missingProperty, "Missing required property \"position\"", ssp⟩ := by
      simp [gradStop1, hpos]
    have hmap : mapE gradStop1 (pre ++ RawNode.map entries ssp :: post)
        = .error ⟨.missingProperty,
            "Missing required property \"position\"", ssp⟩ :=
      mapE_append_error hpre hstop
    simp [validateValue, withAlias, aliasCheck, validateBody, gradientBody,
      seqToList_listToSeq, hmap, Bind.bind, Except.bind]

/-- Witness for C6 at the test-suite inputs: border missing color pinned to
the value object span, and a gradient stop missing position pinned to the
span of the stop object, which differs from the span of the array. -/
theorem c6_missing_property_witness :
    validateValue .border
        (.map (listToMap [("style", .str "solid" (mkSp 5)),
          ("width", .str "1px" (mkSp 6))]) (mkSp 4))
      = .error ⟨.missingProperty, "Missing required property \"color\"", mkSp 4⟩ ∧
    validateValue .gradient
        (.seq (listToSeq [
          .map (listToMap [("color", .str "foo" (mkSp 6)),
            ("position", .num 0 (mkSp 7))]) (mkSp 5),
          .map (listToMap [("color", .str "#ff9900" (mkSp 10))]) (mkSp 9)]) (mkSp 4))
      = .error ⟨.missingProperty, "Missing required property \"position\"", mkSp 9⟩ ∧
    mkSp 9 ≠ mkSp 4 := by
  refine ⟨c6_missing_property.1 _ (mkSp 4) rfl, ?_, by decide⟩
  have happ := c6_missing_property.2.2.2.2
    [RawNode.map (listToMap [("color", .str "foo" (mkSp 6)),
      ("position", .num 0 (mkSp 7))]) (mkSp 5)]
    (listToMap [("color", .str "#ff9900" (mkSp 10))]) (mkSp 9) [] (mkSp 4)
    (by
      intro n hn
      rcases List.mem_singleton.mp hn with rfl
      exact ⟨_, rfl⟩)
    rfl
  exact happ

/-- C9: Hex color notation. The color validator accepts hash-hex strings:
with six hex digits the normalized value has colorSpace srgb, every channel
equal to its byte over 255 and alpha 1; with eight digits the alpha is the
fourth byte over 255. -/
theorem c9_hex_color :
    (∀ (b1 b2 b3 : Nat) (a : ℚ), hexColor b1 b2 b3 a
      = .color "srgb" ((b1 : ℚ) / 255) ((b2 : ℚ) / 255) ((b3 : ℚ) / 255) a) ∧
    (∀ (c1 c2 c3 c4 c5 c6 : Char) (h1 h2 h3 h4 h5 h6 : Nat) (sp : SourceSpan),
      hexVal c1 = some h1 → hexVal c2 = some h2 → hexVal c3 = some h3 →
      hexVal c4 = some h4 → hexVal c5 = some h5 → hexVal c6 = some h6 →
      validateValue .color (.str (String.mk [hashCh, c1, c2, c3, c4, c5, c6]) sp)
        = .ok (hexColor (16 * h1 + h2) (16 * h3 + h4) (16 * h5 + h6) 1)) ∧
    (∀ (c1 c2 c3 c4 c5 c6 c7 c8 : Char) (h1 h2 h3 h4 h5 h6 h7 h8 : Nat)
        (sp : SourceSpan),
      hexVal c1 = some h1 → hexVal c2 = some h2 → hexVal c3 = some h3 →
      hexVal c4 = some h4 → hexVal c5 = some h5 → hexVal c6 = some h6 →
      hexVal c7 = some h7 → hexVal c8 = some h8 →
      validateValue .color
          (.str (String.mk [hashCh, c1, c2, c3, c4, c5, c6, c7, c8]) sp)
        = .ok (hexColor (16 * h1 + h2) (16 * h3 + h4) (16 * h5 + h6)
            (((16 * h7 + h8 : Nat) : ℚ) / 255))) := by
  refine ⟨fun b1 b2 b3 a => rfl, ?_, ?_⟩
  · intro c1 c2 c3 c4 c5 c6 h1 h2 h3 h4 h5 h6 sp e1 e2 e3 e4 e5 e6
    simp [validateValue, withAlias, aliasCheck, validateBody, colorBody,
      parseColorStr, hexByte, e1, e2, e3, e4, e5, e6, Bind.bind, Option.bind, lbrace,
      hashCh, Char.ofNat]
  · intro c1 c2 c3 c4 c5 c6 c7 c8 h1 h2 h3 h4 h5 h6 h7 h8 sp e1 e2 e3 e4 e5 e6 e7 e8
    simp [validateValue, withAlias, aliasCheck, validateBody, colorBody,
      parseColorStr, hexByte, e1, e2, e3, e4, e5, e6, e7, e8, Bind.bind, Option.bind,
      lbrace, hashCh, Char.ofNat]

/-- Witness for C9 at the test-suite colors: the six-digit hex 663399 has
channels 102, 51 and 153 over 255, which are exactly two fifths, one fifth
and three fifths, with alpha 1; the eight-digit hex 00000020 has alpha 32
over 255. -/
theorem c9_hex_color_witness :
    validateValue .color (.str "#663399" (mkSp 1))
      = .ok (hexColor 102 51 153 1) ∧
    hexColor 102 51 153 1 = .color "srgb" (2/5) (1/5) (3/5) 1 ∧
    validateValue .color (.str "#00000020" (mkSp 1))
      = .ok (hexColor 0 0 0 ((32 : ℚ) / 255)) := by
  refine ⟨?_, ?_, ?_⟩
  · have h6 : validateValue .color
        (.str (String.mk [hashCh, Char.ofNat 54, Char.ofNat 54, Char.ofNat 51,
          Char.ofNat 51, Char.ofNat 57, Char.ofNat 57]) (mkSp 1))
        = .ok (hexColor (16 * 6 + 6) (16 * 3 + 3) (16 * 9 + 9) 1) :=
      c9_hex_color.2.1 (Char.ofNat 54) (Char.ofNat 54) (Char.ofNat 51)
        (Char.ofNat 51) (Char.ofNat 57) (Char.ofNat 57) 6 6 3 3 9 9 (mkSp 1)
        rfl rfl rfl rfl rfl rfl
    exact h6
  · rw [c9_hex_color.1 102 51 153 1]
    norm_num
  · have h8 : validateValue .color
        (.str (String.mk [hashCh, Char.ofNat 48, Char.ofNat 48, Char.ofNat 48,
          Char.ofNat 48, Char.ofNat 48, Char.ofNat 48, Char.ofNat 50,
          Char.ofNat 48]) (mkSp 1))
        = .ok (hexColor (16 * 0 + 0) (16 * 0 + 0) (16 * 0 + 0)
            (((16 * 2 + 0 : Nat) : ℚ) / 255)) :=
      c9_hex_color.2.2 (Char.ofNat 48) (Char.ofNat 48) (Char.ofNat 48)
        (Char.ofNat 48) (Char.ofNat 48) (Char.ofNat 48) (Char.ofNat 50)
        (Char.ofNat 48) 0 0 0 0 0 0 2 0 (mkSp 1) rfl rfl rfl rfl rfl rfl rfl rfl
    exact h8

/-- C10: Shadow sub-fields stay verbatim. A valid shadow object keeps every
sub-field exactly as written, in particular a hex color string stays a plain
string; border and gradient, by contrast, replace their color sub-fields with
the normalized color value. -/
theorem c10_shadow_verbatim :
    (∀ (entries : RawMap) (sp : SourceSpan) (h : String) (csp : SourceSpan)
        (xN yN bN : RawNode) (vx vy vb : Val),
      entries.lookup "color" = some (.str h csp) →
      (∀ c, h.data.head? = some c → c ≠ lbrace) →
      entries.lookup "offsetX" = some xN →
      entries.lookup "offsetY" = some yN →
      entries.lookup "blur" = some bN →
      entries.lookup "spread" = none →
      withAlias shadowFieldBody xN = .ok vx →
      withAlias shadowFieldBody yN = .ok vy →
      withAlias shadowFieldBody bN = .ok vb →
      validateValue .shadow (.map entries sp)
        = .ok (.arr [.obj [("color", .str h), ("offsetX", vx),
            ("offsetY", vy), ("blur", vb)]])) ∧
    (∀ (entries : RawMap) (sp : SourceSpan) (h : String) (csp : SourceSpan)
        (cv : Val) (wN sN : RawNode) (vw vs : Val),
      entries.lookup "color" = some (.str h csp) →
      (∀ c, h.data.head? = some c → c ≠ lbrace) →
      parseColorStr h csp = .ok cv →
      entries.lookup "width" = some wN →
      entries.lookup "style" = some sN →
      withAlias dimensionBody wN = .ok vw →
      withAlias strokeStyleBody sN = .ok vs →
      validateValue .border (.map entries sp)
        = .ok (.obj [("color", cv), ("width", vw), ("style", vs)])) ∧
    (∀ (entries : RawMap) (ssp arrSp : SourceSpan) (h : String)
        (csp psp : SourceSpan) (cv : Val) (pq : ℚ),
      entries.lookup "position" = some (.num pq psp) →
      entries.lookup "color" = some (.str h csp) →
      (∀ c, h.data.head? = some c → c ≠ lbrace) →
      parseColorStr h csp = .ok cv →
      validateValue .gradient (.seq (listToSeq [.map entries ssp]) arrSp)
        = .ok (.arr [.obj [("color", cv), ("position", .num pq)]])) := by
  refine ⟨?_, ?_, ?_⟩
  · intro entries sp h csp xN yN bN vx vy vb hc hlb hx hy hb hspread hvx hvy hvb
    have hcv : withAlias shadowFieldBody (.str h csp) = .ok (.str h) := by
      simp only [withAlias, aliasCheck]
      cases hh : h.data.head? with
      | none => rfl
      | some c => simp [hlb c hh, shadowFieldBody]
    rw [show validateValue .shadow (.map entries sp) = shadowBody (.map entries sp)
      from rfl]
    simp [shadowBody, shadowLayer, hc, hx, hy, hb, hspread, hcv, hvx, hvy, hvb,
      Bind.bind, Except.bind, Except.map]
  · intro entries sp h csp cv wN sN vw vs hc hlb hcv hw hs hvw hvs
    have hcol : withAlias colorBody (.str h csp) = .ok cv := by
      simp only [withAlias, aliasCheck]
      cases hh : h.data.head? with
      | none =>
        simp only [colorBody]
        exact hcv
      | some c => simp [hlb c hh, colorBody, hcv]
    rw [show validateValue .border (.map entries sp) = borderBody (.map entries sp)
      from rfl]
    simp [borderBody, hc, hw, hs, hcol, hvw, hvs, Bind.bind, Except.bind]
  · intro entries ssp arrSp h csp psp cv pq hp hcolor hlb hcv
    have hnum : withAlias numberBody (.num pq psp) = .ok (.num pq) := rfl
    have hcol : withAlias colorBody (.str h csp) = .ok cv := by
      simp only [withAlias, aliasCheck]
      cases hh : h.data.head? with
      | none =>
        simp only [colorBody]
        exact hcv
      | some c => simp [hlb c hh, colorBody, hcv]
    rw [show validateValue .gradient (.seq (listToSeq [.map entries ssp]) arrSp)
      = gradientBody (.seq (listToSeq [.map entries ssp]) arrSp) from rfl]
    simp [gradientBody, seqToList_listToSeq, mapE, gradStop1, gradStop2, hp,
      hcolor, hnum, hcol, Bind.bind, Except.bind]

/-- Witness for C10 at the test-suite inputs: the shadow keeps the hex string
000000 as a plain string, while a border with the same hex color normalizes
it to the srgb triple. -/
theorem c10_shadow_verbatim_witness :
    validateValue .shadow
        (.map (listToMap [("color", .str "#000000" (mkSp 5)),
          ("offsetX", .num 0 (mkSp 6)), ("offsetY", .str "0.25rem" (mkSp 7)),
          ("blur", .str "0.5rem" (mkSp 8))]) (mkSp 4))
      = .ok (.arr [.obj [("color", .str "#000000"), ("offsetX", .num 0),
          ("offsetY", .str "0.25rem"), ("blur", .str "0.5rem")]]) ∧
    validateValue .border
        (.map (listToMap [("color", .str "#000000" (mkSp 5)),
          ("style", .str "solid" (mkSp 6)), ("width", .str "1px" (mkSp 7))])
          (mkSp 4))
      = .ok (.obj [("color", hexColor 0 0 0 1), ("width", .str "1px"),
          ("style", .str "solid")]) := by
  refine ⟨?_, ?_⟩
  · exact c10_shadow_verbatim.1
      (listToMap [("color", .str "#000000" (mkSp 5)), ("offsetX", .num 0 (mkSp 6)),
        ("offsetY", .str "0.25rem" (mkSp 7)), ("blur", .str "0.5rem" (mkSp 8))])
      (mkSp 4) "#000000" (mkSp 5) (.num 0 (mkSp 6)) (.str "0.25rem" (mkSp 7))
      (.str "0.5rem" (mkSp 8)) (.num 0) (.str "0.25rem") (.str "0.5rem")
      rfl (by decide) rfl rfl rfl rfl rfl rfl rfl
  · exact c10_shadow_verbatim.2.1
      (listToMap [("color", .str "#000000" (mkSp 5)), ("style", .str "solid" (mkSp 6)),
        ("width", .str "1px" (mkSp 7))])
      (mkSp 4) "#000000" (mkSp 5) (hexColor 0 0 0 1) (.str "1px" (mkSp 7))
      (.str "solid" (mkSp 6)) (.str "1px") (.str "solid")
      rfl (by decide) rfl rfl rfl rfl rfl

theorem forall2_comp {R : α → β → Prop} {S : β → γ → Prop} {xs : List α}
    {ys : List β} {zs : List γ}
    (h1 : List.Forall₂ R xs ys) (h2 : List.Forall₂ S ys zs) :
    List.Forall₂ (fun x z => ∃ y, R x y ∧ S y z) xs zs := by
  induction h1 generalizing zs with
  | nil =>
    cases h2
    exact .nil
  | @cons a b as bs hr ht ih =>
    cases h2 with
    | cons hs hts => exact .cons ⟨b, hr, hs⟩ (ih hts)

/-- C3: Mode-table invariant. In every successfully parsed table, every token
exposes a non-empty mode mapping whose first key is the base mode dot; the
keys are exactly the dot followed by the keys of the raw mode overrides, so a
token without overrides has exactly the single dot key; and validation
produces every mode entry, base and overrides alike, with the one validator
of the token type. -/
theorem c3_modes_invariant
    (doc : RawNode) (table : List NormalizedToken) (toks : List TokenRaw)
    (hparse : parseDocument doc = .ok table)
    (hwalk : walkNode [] none none doc = .ok toks) :
    (∀ nt ∈ table, ∃ v rest, nt.modes = (".", v) :: rest) ∧
    List.Forall₂ (fun (tr : TokenRaw) (nt : NormalizedToken) =>
      nt.modes.map Prod.fst = "." :: tr.modes.map Prod.fst) toks table ∧
    (∀ (r : TokenRaw) (vt : VToken), validateToken r = .ok vt →
      ∃ b os, validateValue r.type r.value = .ok b ∧
        List.Forall₂ (fun (p : String × RawNode) (q : String × Val) =>
          p.1 = q.1 ∧ validateValue r.type p.2 = .ok q.2) r.modes os ∧
        vt.vmodes = (".", b) :: os) := by
  simp only [parseDocument, hwalk, Bind.bind, Except.bind] at hparse
  cases hv : mapE validateToken toks with
  | error e => rw [hv] at hparse; exact absurd hparse (by simp)
  | ok vts =>
  rw [hv] at hparse
  replace hparse : mapE (resolveToken vts (totalFuel vts)) vts = .ok table := hparse
  have hf1 := mapE_ok_forall2 hv
  have hf2 := mapE_ok_forall2 hparse
  have hcomp := forall2_comp hf1 hf2
  have hmain : List.Forall₂ (fun (tr : TokenRaw) (nt : NormalizedToken) =>
      nt.modes.map Prod.fst = "." :: tr.modes.map Prod.fst) toks table := by
    refine hcomp.imp ?_
    intro tr nt hex
    obtain ⟨vt, hval, hres⟩ := hex
    obtain ⟨_, _, _, _, b, os, hb, hos, hm⟩ := validateToken_parts hval
    obtain ⟨_, _, _, _, ⟨ms, hms, hmod⟩, _⟩ := resolveToken_parts hres
    have h1 : ms.map Prod.fst = vt.vmodes.map Prod.fst := mapE_pair_fst hms
    have h2 : os.map Prod.fst = tr.modes.map Prod.fst := mapE_pair_fst hos
    rw [hmod, h1, hm]
    simp [h2]
  refine ⟨?_, hmain, ?_⟩
  · intro nt hnt
    obtain ⟨tr, _, heq⟩ := forall2_mem_right hmain hnt
    cases hmm : nt.modes with
    | nil => rw [hmm] at heq; simp at heq
    | cons p rest =>
      obtain ⟨k, v⟩ := p
      rw [hmm] at heq
      simp only [List.map_cons, List.cons.injEq] at heq
      obtain ⟨hk, _⟩ := heq
      subst hk
      exact ⟨v, rest, rfl⟩
  · intro r vt hval
    obtain ⟨_, _, _, _, b, os, hb, hos, hm⟩ := validateToken_parts hval
    exact ⟨b, os, hb, mapE_pair_forall2 hos, hm⟩

/-- Witness for C3 at the two demonstration documents: with mode overrides
the keys are dot, light, dark in that order; without any overrides the keys
are exactly the single dot. -/
theorem c3_modes_invariant_witness :
    parseDocument demoDoc2 = .ok demoTable2 ∧
    List.Forall₂ (fun (tr : TokenRaw) (nt : NormalizedToken) =>
      nt.modes.map Prod.fst = "." :: tr.modes.map Prod.fst) demoToks2 demoTable2 ∧
    parseDocument demoDoc1 = .ok demoTable1 ∧
    List.Forall₂ (fun (tr : TokenRaw) (nt : NormalizedToken) =>
      nt.modes.map Prod.fst = "." :: tr.modes.map Prod.fst) demoToks1 demoTable1 ∧
    demoTable2.map (fun nt => nt.modes.map Prod.fst)
      = [[".", "light", "dark"], [".", "light", "dark"]] ∧
    demoTable1.map (fun nt => nt.modes.map Prod.fst) = [["."], ["."]] :=
  ⟨rfl, (c3_modes_invariant demoDoc2 demoTable2 demoToks2 rfl rfl).2.1,
   rfl, (c3_modes_invariant demoDoc1 demoTable1 demoToks1 rfl rfl).2.1,
   rfl, rfl⟩

/-- C8: Grouping pass. A non-root mapping node without a value key is walked
as a group whose record holds the dot-joined id, the effective type,
description and extensions metadata, and exactly the ids of its direct
descendant token children in document order; every direct token child is
emitted with its group field referencing that record. -/
theorem c8_grouping :
    (∀ (path : List String) (inh : Option TokenType) (parent : Option GroupSpec)
        (entries : RawMap) (sp : SourceSpan) (ot : Option TokenType),
      typeOfEntries entries = .ok ot →
      entries.lookup "$value" = none →
      ¬path = [] →
      walkNode path inh parent (.map entries sp)
        = walkEntries path (ot <|> inh)
            (some (mkGroupSpec path (ot <|> inh) entries)) entries) ∧
    (∀ (path : List String) (eff : Option TokenType) (entries : RawMap),
      mkGroupSpec path eff entries
        = ⟨dotJoin path, eff, descOf entries, extOf entries,
           directTokenIds path entries⟩) ∧
    (∀ (path : List String) (inh : Option TokenType) (g : Option GroupSpec)
        (k : String) (entries : RawMap) (sp : SourceSpan) (rest : RawMap)
        (ot : Option TokenType) (v : RawNode) (ty : TokenType)
        (restRes : List TokenRaw),
      isMeta k = false →
      typeOfEntries entries = .ok ot →
      entries.lookup "$value" = some v →
      (ot <|> inh) = some ty →
      walkEntries path inh g rest = .ok restRes →
      walkEntries path inh g (.cons k (.map entries sp) rest)
        = .ok (⟨dotJoin (path ++ [k]), ty, v, modesOf entries, g, sp⟩ :: restRes)) := by
  refine ⟨?_, fun path eff entries => rfl, ?_⟩
  · intro path inh parent entries sp ot htype hval hpath
    simp only [walkNode, htype, Bind.bind, Except.bind, hval]
    cases path with
    | nil => exact absurd rfl hpath
    | cons a as => rfl
  · intro path inh g k entries sp rest ot v ty restRes hmeta htype hval heff hrest
    simp only [walkEntries, hmeta, Bool.false_eq_true, if_false, walkNode, htype,
      hval, heff, Bind.bind, Except.bind, hrest]
    rfl

/-- Witness for C8 at the groups test document: the color.blue group record
holds the dot-joined id, the inherited color type, description, extensions
and the four numbered token ids in document order, and the collected tokens
reference it through their group field. -/
theorem c8_grouping_witness :
    walkNode ["color", "blue"] (some .color) none (.map demoBlueEntries (mkSp 3))
      = walkEntries ["color", "blue"] (some .color)
          (some (mkGroupSpec ["color", "blue"] (some .color) demoBlueEntries))
          demoBlueEntries ∧
    mkGroupSpec ["color", "blue"] (some .color) demoBlueEntries
      = ⟨"color.blue", some .color, some "Blue palette",
         some (.map (listToMap [("foo", .str "bar" (mkSp 6))]) (mkSp 5)),
         ["color.blue.7", "color.blue.8", "color.blue.9", "color.blue.10"]⟩ ∧
    demoToks3.map (fun t => t.id)
      = ["color.blue.7", "color.blue.8", "color.blue.9", "color.blue.10"] ∧
    demoToks3.map (fun t => t.group)
      = [some (mkGroupSpec ["color", "blue"] (some .color) demoBlueEntries),
         some (mkGroupSpec ["color", "blue"] (some .color) demoBlueEntries),
         some (mkGroupSpec ["color", "blue"] (some .color) demoBlueEntries),
         some (mkGroupSpec ["color", "blue"] (some .color) demoBlueEntries)] := by
  refine ⟨?_, rfl, rfl, rfl⟩
  exact c8_grouping.1 ["color", "blue"] (some .color) none demoBlueEntries
    (mkSp 3) none rfl rfl (by decide)

end Terrazzo
